import Mathlib

/-!
# Plugin discovery and trust validation (`pkg/plugins/manager`)

A shallow embedding of `manager.go` and `queries.go`: the scan-local
descriptor map, `PluginScanner.walker` and `PluginScanner.loadPlugin` of the
first pass, the ancestry step of `scan`, `PluginScanner.validateSignature`,
`PluginScanner.allowUnsigned`, `PluginManager.loadPlugin`, the second pass of
`PluginManager.scan`, `PluginManager.ScanningErrors` and
`PluginManager.GetPluginSettings`.

Conventions of the embedding.

* Go pointers `*plugins.PluginBase` are addresses (`Ptr`) into an explicit
  store (`Heap`); a nil pointer is `none`.  A pointer to a typed plugin
  (`*plugins.DataSourcePlugin`, ...) and the pointer `&p.PluginBase` to its
  embedded base are the same address.
* Go maps are association lists (`GoMap`); the order of the list is the order
  in which `range` visits the map.
* Paths are byte strings, written as lists of characters.
* A Go `panic` is the outcome `Outcome.panicked`; the state reached so far is
  returned next to it.
* The operating system, the file system, the manifest decoder, the signature
  resolver, the settings query and the type specific loaders are parameters
  (`Host`, `Disk`, and arguments of `GetPluginSettings`).
-/

namespace PluginManagerModel

/-! ## Strings, paths and maps -/

/-- A path: a Go string read as a list of characters. -/
abbrev Path := List Char

/-- An address of a `plugins.PluginBase` in the store. -/
abbrev Ptr := Nat

/-- A Go map with keys `κ`: an association list, first binding wins. -/
abbrev GoMap (κ : Type) (V : Type) := List (κ × V)

/-- The map read `v, ok := m[k]`. -/
def GoMap.get? {κ V : Type} [DecidableEq κ] : GoMap κ V → κ → Option V
  | [], _ => none
  | (k0, v) :: rest, k => if k0 = k then some v else GoMap.get? rest k

/-- The map write `m[k] = v`: replaces the binding of `k`, or adds one. -/
def GoMap.set {κ V : Type} [DecidableEq κ] : GoMap κ V → κ → V → GoMap κ V
  | [], k, v => [(k, v)]
  | (k0, v0) :: rest, k, v =>
    if k0 = k then (k0, v) :: rest else (k0, v0) :: GoMap.set rest k v

/-- The keys of a map, in visiting order. -/
def GoMap.keys {κ V : Type} (m : GoMap κ V) : List κ := m.map Prod.fst

/-! ## Data model (package `plugins`) -/

/-- Modelled from the spec: the type `plugins.PluginSignature` and its five
constants (package `plugins` is not among the sources); the spec lists the
states `Valid | Unsigned | Invalid | Modified | Internal`. -/
inductive PluginSignature where
  | PluginSignatureInternal
  | PluginSignatureValid
  | PluginSignatureInvalid
  | PluginSignatureModified
  | PluginSignatureUnsigned
  deriving DecidableEq, Repr, Inhabited

export PluginSignature (PluginSignatureInternal PluginSignatureValid PluginSignatureInvalid
  PluginSignatureModified PluginSignatureUnsigned)

/-- Modelled from the spec: the type `plugins.ErrorCode` with the three
constants `signatureMissing`, `signatureInvalid`, `signatureModified` used by
`validateSignature` (declared outside the sources); the spec names them
`MissingSignature`, `InvalidSignature`, `ModifiedSignature`.  `unset` is the
zero value. -/
inductive ErrorCode where
  | unset
  | signatureMissing
  | signatureInvalid
  | signatureModified
  deriving DecidableEq, Repr, Inhabited

export ErrorCode (signatureMissing signatureInvalid signatureModified)

/-- The struct `plugins.PluginError`. -/
structure PluginError where
  ErrorCode : ErrorCode := ErrorCode.unset
  PluginID : String := ""
  deriving DecidableEq, Repr, Inhabited

/-- The struct `plugins.PluginDependencyItem`. -/
structure PluginDependencyItem where
  Id : String := ""
  Version : String := ""
  deriving DecidableEq, Repr, Inhabited

/-- The struct `plugins.PluginDependencies`. -/
structure PluginDependencies where
  GrafanaVersion : String := ""
  Plugins : List PluginDependencyItem := []
  deriving DecidableEq, Repr, Inhabited

/-- The struct `plugins.PluginInclude`, with the field the manager writes. -/
structure PluginInclude where
  Name : String := ""
  Role : String := ""
  deriving DecidableEq, Repr, Inhabited

/-- The struct `plugins.PluginBase`: the fields that `manager.go` and
`queries.go` read or write. -/
structure PluginBase where
  Type_ : String := ""
  Name : String := ""
  Id : String := ""
  Dependencies : PluginDependencies := {}
  Includes : List PluginInclude := []
  Signature : PluginSignature := PluginSignatureUnsigned
  Backend : Bool := false
  IncludedInAppId : String := ""
  PluginDir : Path := []
  IsCorePlugin : Bool := false
  Files : List Path := []
  SignatureType : String := ""
  SignatureOrg : String := ""
  Root : Option Ptr := none
  deriving DecidableEq, Repr, Inhabited

/-- The store of descriptors: what each address holds. -/
abbrev Heap := Ptr → PluginBase

/-- The assignment through a pointer, `*p = v`. -/
def Heap.write (h : Heap) (p : Ptr) (v : PluginBase) : Heap :=
  fun q => if q = p then v else h q

/-- The values of type `error` that the manager creates or passes on. -/
inductive GoError where
  /-- The sentinel `os.ErrNotExist`. -/
  | ErrNotExist
  /-- The sentinel `os.ErrPermission`. -/
  | ErrPermission
  /-- Any other error of the operating system or of a loader. -/
  | other (msg : String)
  /-- The error `fmt.Errorf("filepath.Walk reported an error for %q: %w", path, err)`. -/
  | walkReported (path : Path) (cause : GoError)
  /-- The error `fmt.Errorf("unknown plugin type %q", t)`. -/
  | unknownPluginType (t : String)
  /-- The error `errors.New("did not find type or id properties in plugin.json")`. -/
  | missingTypeOrId
  /-- The error `fmt.Errorf("plugin %q is unsigned", id)`. -/
  | pluginUnsigned (id : String)
  /-- The error `fmt.Errorf("plugin %q has an invalid signature", id)`. -/
  | pluginInvalidSignature (id : String)
  /-- The error `fmt.Errorf("plugin %q's signature has been modified", id)`. -/
  | pluginModifiedSignature (id : String)
  /-- The error `plugins.DuplicatePluginError{Plugin: pb, ExistingPlugin: p}`. -/
  | DuplicatePluginError (Plugin : Ptr) (ExistingPlugin : Ptr)
  /-- The sentinel `util.ErrWalkSkipDir`. -/
  | ErrWalkSkipDir
  deriving DecidableEq, Repr, Inhabited

/-- The values the manager panics with. -/
inductive PanicValue where
  /-- The panic "Plugin %q has unrecognized plugin signature state %q". -/
  | unrecognizedSignature (id : String) (state : PluginSignature)
  /-- The panic "Unrecognized plugin type %T". -/
  | unrecognizedPluginType
  deriving DecidableEq, Repr, Inhabited

/-- How a call ends: it returns a value, or it panics. -/
inductive Outcome (α : Type) where
  | returned (a : α)
  | panicked (p : PanicValue)
  deriving DecidableEq, Repr

/-! ## Configuration and scanner -/

/-- Modelled from the spec: the constant `setting.Dev` (package `setting` is
not among the sources), the value of `Cfg.Env` that the spec calls the global
"development mode" flag. -/
def settingDev : String := "development"

/-- The struct `setting.Cfg`: the fields the manager reads. -/
structure Cfg where
  Env : String := ""
  PluginsAllowUnsigned : List String := []
  StaticRootPath : Path := []

/-- The struct `PluginScanner`.  `allowUnsignedPluginsCondition` is a nil-able
function value; it is applied to the descriptor its argument points to. -/
structure PluginScanner where
  pluginPath : Path := []
  errors : List GoError := []
  cfg : Cfg := {}
  requireSigned : Bool := false
  plugins : GoMap Path Ptr := []
  allowUnsignedPluginsCondition : Option (PluginBase → Bool) := none

/-- `PluginScanner.allowUnsigned` (manager.go 517-533). -/
def PluginScanner.allowUnsigned (s : PluginScanner) (plugin : PluginBase) : Bool :=
  match s.allowUnsignedPluginsCondition with
  | some cond => cond plugin
  | none =>
    if s.cfg.Env = settingDev then true
    else s.cfg.PluginsAllowUnsigned.any (fun plug => decide (plug = plugin.Id))

/-- `PluginScanner.validateSignature` (manager.go 457-515): the result (nil is
`none`), the scanner with its error list, and the store. -/
def PluginScanner.validateSignature (s : PluginScanner) (h : Heap) (plugin : Ptr) :
    Outcome (Option PluginError) × PluginScanner × Heap :=
  if (h plugin).Signature = PluginSignatureValid then (.returned none, s, h)
  else
    -- the block `if plugin.Root != nil`: the store after it, and whether it returned nil
    let blk : Heap × Bool :=
      match (h plugin).Root with
      | some root =>
        if (h plugin).IsCorePlugin = true ∨ (h plugin).Signature = PluginSignatureInternal then
          (h, false)
        else
          let h1 := h.write plugin { h plugin with Signature := (h root).Signature }
          (h1, decide ((h1 plugin).Signature = PluginSignatureValid))
      | none => (h, false)
    let h1 := blk.1
    if blk.2 = true then (.returned none, s, h1)
    else if (h1 plugin).Backend = false ∨ s.requireSigned = false then (.returned none, s, h1)
    else
      match (h1 plugin).Signature with
      | PluginSignatureUnsigned =>
        if s.allowUnsigned (h1 plugin) = false then
          (.returned (some { ErrorCode := signatureMissing }),
            { s with errors := s.errors ++ [GoError.pluginUnsigned (h1 plugin).Id] }, h1)
        else (.returned none, s, h1)
      | PluginSignatureInvalid =>
        (.returned (some { ErrorCode := signatureInvalid }),
          { s with errors := s.errors ++ [GoError.pluginInvalidSignature (h1 plugin).Id] }, h1)
      | PluginSignatureModified =>
        (.returned (some { ErrorCode := signatureModified }),
          { s with errors := s.errors ++ [GoError.pluginModifiedSignature (h1 plugin).Id] }, h1)
      | st => (.panicked (PanicValue.unrecognizedSignature (h1 plugin).Id st), s, h1)

/-! ## Paths (Go standard library, unix build)

`strings.Split`, `strings.Join`, `strings.HasPrefix`, `filepath.IsAbs`,
`filepath.Clean` and `filepath.Join` belong to the Go standard library.  They
are written here for the unix build, where `filepath.Separator` is `/` and
there are no volume names. -/

/-- The constant `filepath.Separator`. -/
def Separator : Char := '/'

/-- The call `strings.Split(s, string(sep))` for a one character separator. -/
def stringsSplit : Path → Char → List Path
  | [], _ => [[]]
  | c :: cs, sep =>
    if c = sep then [] :: stringsSplit cs sep
    else
      match stringsSplit cs sep with
      | [] => [[c]]
      | seg :: rest => (c :: seg) :: rest

/-- The call `strings.Join(elems, string(sep))`. -/
def stringsJoin : List Path → Char → Path
  | [], _ => []
  | [e], _ => e
  | e :: e1 :: rest, sep => e ++ sep :: stringsJoin (e1 :: rest) sep

/-- The call `strings.HasPrefix(s, pre)`. -/
def stringsHasPrefix (s pre : Path) : Bool := pre.isPrefixOf s

/-- The function `filepath.IsAbs` on unix: the path starts with a slash. -/
def IsAbs (path : Path) : Bool := stringsHasPrefix path [Separator]

/-- One round of the loop of `filepath.Clean`, on a whole path element: the
elements written so far are `out`, last one first.  An empty element and `.`
are dropped; `..` removes the last element when there is one to remove, is
dropped at the root, and is kept in front of a relative path; any other element
is written. -/
def cleanStep (rooted : Bool) (out : List Path) (elem : Path) : List Path :=
  if elem = [] ∨ elem = ['.'] then out
  else if elem = ['.', '.'] then
    match out with
    | [] => if rooted then [] else [elem]
    | last :: before =>
      if last = ['.', '.'] then (if rooted then out else elem :: out) else before
  else elem :: out

/-- The function `filepath.Clean` on unix. -/
def Clean (path : Path) : Path :=
  if path = [] then ['.']
  else
    let rooted := IsAbs path
    let elems := (stringsSplit path Separator).foldl (cleanStep rooted) []
    let out := (if rooted then [Separator] else []) ++ stringsJoin elems.reverse Separator
    if out = [] then ['.'] else out

/-- The function `filepath.Join` on unix: the elements from the first non-empty
one on are joined with slashes and cleaned. -/
def Join : List Path → Path
  | [] => []
  | e :: rest => if e ≠ [] then Clean (stringsJoin (e :: rest) Separator) else Join rest

/-! ## The ancestry step of `scan` (manager.go 229-242) -/

/-- The slice `ancestors` of `scan`: the elements of `dpath` without the last. -/
def scanAncestors (dpath : Path) : List Path :=
  let ancestors := stringsSplit dpath Separator
  ancestors.take (ancestors.length - 1)

/-- The loop `for _, a := range ancestors` of `scan`, from the current `aPath`:
the first pointer found in the scan-local map (`break`), or `none`. -/
def scanRootLoop (plugins : GoMap Path Ptr) : Path → List Path → Option Ptr
  | _, [] => none
  | aPath, a :: rest =>
    let aPath1 := Join [aPath, a]
    match plugins.get? aPath1 with
    | some root => some root
    | none => scanRootLoop plugins aPath1 rest

/-- The search for a root plugin in `scan` (manager.go 230-242): the pointer
assigned to `plugin.Root`, or `none` when the loop assigns nothing.  `goos` is
`runtime.GOOS`. -/
def scanFindRoot (goos : String) (plugins : GoMap Path Ptr) (dpath : Path) : Option Ptr :=
  let ancestors := scanAncestors dpath
  let aPath : Path := if goos ≠ "windows" ∧ IsAbs dpath = true then ['/'] else []
  scanRootLoop plugins aPath ancestors

/-- The effect of the ancestry step on the store: `plugin.Root = root` when a
root is found, nothing otherwise. -/
def scanAssignRoot (goos : String) (plugins : GoMap Path Ptr) (h : Heap) (dpath : Path)
    (plugin : Ptr) : Heap :=
  match scanFindRoot goos plugins dpath with
  | some root => h.write plugin { h plugin with Root := some root }
  | none => h

/-! ## Registries and the registrar -/

/-- The Go types in the table `PluginTypes` (manager.go 81-86). -/
inductive PluginGoType where
  | PanelPlugin
  | DataSourcePlugin
  | AppPlugin
  | RendererPlugin
  deriving DecidableEq, Repr, Inhabited

/-- The package variables of `manager.go` that a scan reads or writes: the
typed registries hold pointers to typed plugins, `Plugins` pointers to their
embedded bases. -/
structure Globals where
  DataSources : GoMap String Ptr := []
  Panels : GoMap String Ptr := []
  Apps : GoMap String Ptr := []
  Plugins : GoMap String Ptr := []
  PluginTypes : GoMap String PluginGoType := []
  Renderer : Option Ptr := none
  deriving DecidableEq, Repr

/-- The table `PluginTypes` as `Init` fills it (manager.go 81-86). -/
def initPluginTypes : GoMap String PluginGoType :=
  [("panel", PluginGoType.PanelPlugin), ("datasource", PluginGoType.DataSourcePlugin),
    ("app", PluginGoType.AppPlugin), ("renderer", PluginGoType.RendererPlugin)]

/-- The struct `PluginManager`: the fields a scan reads or writes. -/
structure PluginManager where
  Cfg : Cfg := {}
  scanningErrors : List GoError := []
  AllowUnsignedPluginsCondition : Option (PluginBase → Bool) := none
  pluginScanningErrors : GoMap String PluginError := []

/-- The dynamic type of the value `plug` that `loader.Load` returns, with the
address of the plugin; `unrecognized` is any type outside the four of the type
switch of `loadPlugin`. -/
inductive LoadedPlugin where
  | DataSourcePlugin (p : Ptr)
  | PanelPlugin (p : Ptr)
  | RendererPlugin (p : Ptr)
  | AppPlugin (p : Ptr)
  | unrecognized
  deriving DecidableEq, Repr, Inhabited

/-- The collaborators outside the sources: `runtime.GOOS`, `fs.Exists`,
`os.Open` (its error, if any), the method `Load` of the type specific loaders
(it may allocate and write the plugin it returns, so it returns the store too)
and `util.Walk` run with `scanner.walker` (its error, and the scanner and the
store after the walk). -/
structure Host where
  GOOS : String
  fsExists : Path → Except GoError Bool
  osOpen : Path → Option GoError
  Load : PluginGoType → Path → Ptr → Heap → Except GoError LoadedPlugin × Heap
  Walk : Path → PluginScanner → Heap → Option GoError × PluginScanner × Heap

/-- Modelled from the spec: the constant `models.ROLE_VIEWER` (package `models`
is not among the sources), the spec's default "viewer" role of an include. -/
def ROLE_VIEWER : String := "Viewer"

/-- `PluginManager.loadPlugin` (manager.go 308-366).  `jsonFPath` is the file
behind `jsonParser` and `loader` the Go type of the loader.  Returns the error
(nil is `none`), the package variables, the scanner and the store. -/
def PluginManager.loadPlugin (host : Host) (_pm : PluginManager) (g : Globals) (h : Heap)
    (jsonFPath : Path) (pluginBase : Ptr) (scanner : PluginScanner) (loader : PluginGoType) :
    Outcome (Option GoError) × Globals × PluginScanner × Heap :=
  match host.Load loader jsonFPath pluginBase h with
  | (Except.error err, h1) => (.returned (some err), g, scanner, h1)
  | (Except.ok plug, h1) =>
    -- the type switch: the package variables after it and `pb`
    let sw : Option (Globals × Ptr) :=
      match plug with
      | LoadedPlugin.DataSourcePlugin p =>
        some ({ g with DataSources := g.DataSources.set (h1 p).Id p }, p)
      | LoadedPlugin.PanelPlugin p => some ({ g with Panels := g.Panels.set (h1 p).Id p }, p)
      | LoadedPlugin.RendererPlugin p => some ({ g with Renderer := some p }, p)
      | LoadedPlugin.AppPlugin p => some ({ g with Apps := g.Apps.set (h1 p).Id p }, p)
      | LoadedPlugin.unrecognized => none
    match sw with
    | none => (.panicked PanicValue.unrecognizedPluginType, g, scanner, h1)
    | some (g1, pb) =>
      match g1.Plugins.get? (h1 pb).Id with
      | some p =>
        (.returned none, g1,
          { scanner with errors := scanner.errors ++ [GoError.DuplicatePluginError pb p] }, h1)
      | none =>
        let h2 :=
          if (h1 pb).Dependencies.Plugins.length = 0 then
            h1.write pb { h1 pb with Dependencies := { (h1 pb).Dependencies with Plugins := [] } }
          else h1
        let h3 :=
          if (h2 pb).Dependencies.GrafanaVersion = "" then
            h2.write pb
              { h2 pb with Dependencies := { (h2 pb).Dependencies with GrafanaVersion := "*" } }
          else h2
        let h4 :=
          h3.write pb
            { h3 pb with
              Includes := (h3 pb).Includes.map
                (fun incl => if incl.Role = "" then { incl with Role := ROLE_VIEWER }
                  else incl) }
        let h5 := h4.write pb { h4 pb with PluginDir := (h4 pluginBase).PluginDir }
        let h6 := h5.write pb { h5 pb with Signature := (h5 pluginBase).Signature }
        let h7 := h6.write pb { h6 pb with SignatureType := (h6 pluginBase).SignatureType }
        let h8 := h7.write pb { h7 pb with SignatureOrg := (h7 pluginBase).SignatureOrg }
        (.returned none, { g1 with Plugins := g1.Plugins.set (h8 pb).Id pb }, scanner, h8)

/-- `PluginManager.GetDatasource` (manager.go 372-375). -/
def PluginManager.GetDatasource (_pm : PluginManager) (g : Globals) (pluginID : String) :
    Option Ptr :=
  g.DataSources.get? pluginID

/-- `PluginScanner.IsBackendOnlyPlugin` (manager.go 452-454). -/
def PluginScanner.IsBackendOnlyPlugin (_s : PluginScanner) (pluginType : String) : Bool :=
  decide (pluginType = "renderer")

/-- `PluginManager.ScanningErrors` (manager.go 536-545). -/
def PluginManager.ScanningErrors (pm : PluginManager) : List PluginError :=
  pm.pluginScanningErrors.foldl
    (fun scanningErrs ide =>
      scanningErrs ++ [{ ErrorCode := ide.2.ErrorCode, PluginID := ide.1 }]) []

/-! ## The second pass of `scan` -/

/-- The state a scan works on: the manager, the package variables, the scanner
of this scan and the store. -/
structure ScanState where
  pm : PluginManager
  g : Globals
  scanner : PluginScanner
  heap : Heap

/-- How one round of the loop of the second pass ends: the loop goes on
(`continue`, or the end of the body), `scan` returns an error, or it panics. -/
inductive Flow where
  | next
  | ret (err : GoError)
  | panic (p : PanicValue)
  deriving DecidableEq, Repr

/-- One round of the loop `for dpath, plugin := range scanner.plugins` of `scan`
(manager.go 228-298). -/
def scanBody (host : Host) (st : ScanState) (dpath : Path) (plugin : Ptr) : Flow × ScanState :=
  -- Try to find any root plugin
  let h1 := scanAssignRoot host.GOOS st.scanner.plugins st.heap dpath plugin
  match st.scanner.validateSignature h1 plugin with
  | (Outcome.panicked p, scanner1, h2) => (Flow.panic p, { st with scanner := scanner1, heap := h2 })
  | (Outcome.returned (some signingError), scanner1, h2) =>
    (Flow.next,
      { st with
        pm := { st.pm with
          pluginScanningErrors := st.pm.pluginScanningErrors.set (h2 plugin).Id signingError }
        scanner := scanner1
        heap := h2 })
  | (Outcome.returned none, scanner1, h2) =>
    let st1 : ScanState := { st with scanner := scanner1, heap := h2 }
    match st1.g.PluginTypes.get? (h2 plugin).Type_ with
    | none => (Flow.ret (GoError.unknownPluginType (h2 plugin).Type_), st1)
    | some pluginGoType =>
      let jsonFPath := Join [(h2 plugin).PluginDir, "plugin.json".toList]
      -- External plugins need a module.js file for SystemJS to load
      let moduleCheck : Option GoError :=
        if stringsHasPrefix jsonFPath st1.pm.Cfg.StaticRootPath = false ∧
            scanner1.IsBackendOnlyPlugin (h2 plugin).Type_ = false then
          match host.fsExists (Join [(h2 plugin).PluginDir, "module.js".toList]) with
          | Except.error err => some err
          | Except.ok _ => none
        else none
      match moduleCheck with
      | some err => (Flow.ret err, st1)
      | none =>
        match host.osOpen jsonFPath with
        | some err => (Flow.ret err, st1)
        | none =>
          match st1.pm.loadPlugin host st1.g h2 jsonFPath plugin scanner1 pluginGoType with
          | (Outcome.panicked p, g1, scanner2, h3) =>
            (Flow.panic p, { st1 with g := g1, scanner := scanner2, heap := h3 })
          | (Outcome.returned (some err), g1, scanner2, h3) =>
            (Flow.ret err, { st1 with g := g1, scanner := scanner2, heap := h3 })
          | (Outcome.returned none, g1, scanner2, h3) =>
            (Flow.next, { st1 with g := g1, scanner := scanner2, heap := h3 })

/-- The loop of the second pass over the entries of the scan-local map, in the
order in which `range` visits them. -/
def scanRange (host : Host) : List (Path × Ptr) → ScanState → Flow × ScanState
  | [], st => (Flow.next, st)
  | (dpath, plugin) :: rest, st =>
    match scanBody host st dpath plugin with
    | (Flow.next, st1) => scanRange host rest st1
    | stop => stop

/-- The function `errors.Is` on the errors of the model: `walkReported` wraps
its cause (`%w`). -/
def errorsIs : GoError → GoError → Bool
  | GoError.walkReported path cause, target =>
    decide (GoError.walkReported path cause = target) || errorsIs cause target
  | err, target => decide (err = target)

/-- `PluginManager.scan` (manager.go 198-306): the returned error (nil is
`none`) or the panic, the manager, the package variables and the store. -/
def PluginManager.scan (host : Host) (pm : PluginManager) (g : Globals) (h : Heap)
    (pluginDir : Path) (requireSigned : Bool) :
    Outcome (Option GoError) × PluginManager × Globals × Heap :=
  let scanner : PluginScanner :=
    { pluginPath := pluginDir
      cfg := pm.Cfg
      requireSigned := requireSigned
      plugins := []
      allowUnsignedPluginsCondition := pm.AllowUnsignedPluginsCondition }
  -- 1st pass: Scan plugins, also mapping plugins to their respective directories
  match host.Walk pluginDir scanner h with
  | (some err, _, h1) =>
    if errorsIs err GoError.ErrNotExist = true then (.returned none, pm, g, h1)
    else if errorsIs err GoError.ErrPermission = true then (.returned none, pm, g, h1)
    else (.returned (some err), pm, g, h1)
  | (none, scanner1, h1) =>
    -- 2nd pass: Validate and register plugins
    match scanRange host scanner1.plugins
        { pm := pm, g := g, scanner := scanner1, heap := h1 } with
    | (Flow.panic p, st) => (.panicked p, st.pm, st.g, st.heap)
    | (Flow.ret err, st) => (.returned (some err), st.pm, st.g, st.heap)
    | (Flow.next, st) =>
      let pm1 :=
        if st.scanner.errors.length > 0 then
          { st.pm with scanningErrors := st.scanner.errors }
        else st.pm
      (.returned none, pm1, st.g, st.heap)

/-! ## The two halves of `validateSignature`

The inheritance step and the decision after it, written apart; the theorem
`validateSignature_eq_enforceStep` shows that `validateSignature` is their
composition. -/

/-- The store after the inheritance step of `validateSignature`
(manager.go 458-480). -/
def inheritStep (h : Heap) (plugin : Ptr) : Heap :=
  if (h plugin).Signature = PluginSignatureValid then h
  else
    match (h plugin).Root with
    | some root =>
      if (h plugin).IsCorePlugin = true ∨ (h plugin).Signature = PluginSignatureInternal then h
      else h.write plugin { h plugin with Signature := (h root).Signature }
    | none => h

/-- The decision of `validateSignature` on the store `h1` left by the
inheritance step (manager.go 482-514); a Valid descriptor was accepted before. -/
def enforceStep (s : PluginScanner) (h1 : Heap) (plugin : Ptr) :
    Outcome (Option PluginError) × PluginScanner × Heap :=
  if (h1 plugin).Signature = PluginSignatureValid then (.returned none, s, h1)
  else if (h1 plugin).Backend = false ∨ s.requireSigned = false then (.returned none, s, h1)
  else
    match (h1 plugin).Signature with
    | PluginSignatureUnsigned =>
      if s.allowUnsigned (h1 plugin) = false then
        (.returned (some { ErrorCode := signatureMissing }),
          { s with errors := s.errors ++ [GoError.pluginUnsigned (h1 plugin).Id] }, h1)
      else (.returned none, s, h1)
    | PluginSignatureInvalid =>
      (.returned (some { ErrorCode := signatureInvalid }),
        { s with errors := s.errors ++ [GoError.pluginInvalidSignature (h1 plugin).Id] }, h1)
    | PluginSignatureModified =>
      (.returned (some { ErrorCode := signatureModified }),
        { s with errors := s.errors ++ [GoError.pluginModifiedSignature (h1 plugin).Id] }, h1)
    | st => (.panicked (PanicValue.unrecognizedSignature (h1 plugin).Id st), s, h1)

/-- The address of the embedded `PluginBase` of a loaded plugin (`pb` in
`loadPlugin`), when its type is one of the four of the type switch. -/
def LoadedPlugin.pluginBase : LoadedPlugin → Option Ptr
  | LoadedPlugin.DataSourcePlugin p => some p
  | LoadedPlugin.PanelPlugin p => some p
  | LoadedPlugin.RendererPlugin p => some p
  | LoadedPlugin.AppPlugin p => some p
  | LoadedPlugin.unrecognized => none

/-! ## Ancestors of a clean absolute path -/

/-- A path element that `Clean` keeps: not empty, not `.`, not `..`, and without
separator. -/
def realElem (e : Path) : Prop :=
  e ≠ [] ∧ e ≠ ['.'] ∧ e ≠ ['.', '.'] ∧ Separator ∉ e

/-- The absolute path with the elements `es`: `/e1/e2/.../en`, and `/` for no
element. -/
def absPath (es : List Path) : Path := Separator :: stringsJoin es Separator

/-- The directory `a` is a strict path-prefix ancestor of the directory `d`:
`a` is absolute, differs from `d`, and is the root directory or `d` starts with
`a` followed by a separator. -/
def StrictAncestor (a d : Path) : Prop :=
  IsAbs a = true ∧ a ≠ d ∧ (a = [Separator] ∨ stringsHasPrefix d (a ++ [Separator]) = true)

instance (a d : Path) : Decidable (StrictAncestor a d) := by
  unfold StrictAncestor
  infer_instance

/-! ## Example scans -/

/-- The store of the trust-inheritance example: package `A` at `/p/A` (address 0)
is Valid and not core; package `B` at `/p/A/B` (every other address) is Unsigned
with root `A`. -/
def inheritHeap : Heap := fun p =>
  if p = 0 then { Id := "A", Type_ := "app", PluginDir := "/p/A".toList,
                  Signature := PluginSignatureValid }
  else { Id := "B", Type_ := "panel", PluginDir := "/p/A/B".toList,
         Signature := PluginSignatureUnsigned, Root := some 0 }

/-- A store with one backend descriptor `U`, Unsigned and without root, at every
address. -/
def unsignedHeap : Heap := fun _ =>
  { Id := "U", Type_ := "datasource", PluginDir := "/p/U".toList, Backend := true,
    Signature := PluginSignatureUnsigned }

/-- A store with one backend descriptor `M`, Modified and without root. -/
def modifiedHeap : Heap := fun _ =>
  { Id := "M", Type_ := "datasource", PluginDir := "/p/M".toList, Backend := true,
    Signature := PluginSignatureModified }

/-- A store with a package `A` at `/p/A` (address 0) whose signature is Invalid
and a backend package `B` at `/p/A/B` (every other address), Unsigned, with root
`A`. -/
def invalidRootHeap : Heap := fun p =>
  if p = 0 then { Id := "A", Type_ := "app", PluginDir := "/p/A".toList,
                  Signature := PluginSignatureInvalid }
  else { Id := "B", Type_ := "datasource", PluginDir := "/p/A/B".toList, Backend := true,
         Signature := PluginSignatureUnsigned, Root := some 0 }

/-- A store with one descriptor `N` that is not backend-capable and Invalid. -/
def frontendHeap : Heap := fun _ =>
  { Id := "N", Type_ := "panel", PluginDir := "/p/N".toList, Backend := false,
    Signature := PluginSignatureInvalid }

/-- A scanner that enforces signing, with the ids `U` and `B` in the allow-list
and no predicate. -/
def allowListScanner : PluginScanner :=
  { requireSigned := true, cfg := { PluginsAllowUnsigned := ["U", "B"] } }

/-- The scanner `allowListScanner` in development mode with a caller-supplied
predicate that allows nothing. -/
def predicateScanner : PluginScanner :=
  { requireSigned := true, cfg := { Env := settingDev, PluginsAllowUnsigned := ["U", "B"] },
    allowUnsignedPluginsCondition := some (fun _ => false) }

/-- A host on which nothing fails and every loader returns the data source at
address 2. -/
def dupHost : Host :=
  { GOOS := "linux"
    fsExists := fun _ => Except.ok true
    osOpen := fun _ => none
    Load := fun _ _ _ h => (Except.ok (LoadedPlugin.DataSourcePlugin 2), h)
    Walk := fun _ scanner h => (none, scanner, h) }

/-- The store of the duplicate example: the data source `ds` registered first
(address 1), a second data source with the same id as its loader decoded it
(address 2), and the scan-local descriptor of the second (address 0). -/
def dupHeap : Heap := fun p =>
  if p = 1 then { Id := "ds", Type_ := "datasource", Name := "first",
                  PluginDir := "/p/first".toList, Signature := PluginSignatureValid }
  else if p = 2 then { Id := "ds", Type_ := "datasource", Name := "second" }
  else { Id := "ds", Type_ := "datasource", Name := "second",
         PluginDir := "/p/second".toList, Signature := PluginSignatureValid }

/-- The registries after the first data source `ds` was registered. -/
def dupGlobals : Globals :=
  { DataSources := [("ds", 1)], Plugins := [("ds", 1)], PluginTypes := initPluginTypes }

/-- A store with one descriptor, discovered at the filesystem root `/`. -/
def rootDirHeap : Heap := fun _ =>
  { Id := "R", Type_ := "panel", PluginDir := "/".toList, Signature := PluginSignatureValid }

/-- The state of a scan that enforces signing, after the walk found the
descriptor `U` of `unsignedHeap` at `/p/U`. -/
def rejectState : ScanState :=
  { pm := {}
    g := { PluginTypes := initPluginTypes }
    scanner := { requireSigned := true, plugins := [("/p/U".toList, 0)] }
    heap := unsignedHeap }

/-- The scan-local map of the nesting example: packages discovered at `/p/A`
(address 0), `/p/A/B` (address 1) and `/p/A/B/C` (address 2). -/
def nestedPlugins : GoMap Path Ptr :=
  [("/p/A".toList, 0), ("/p/A/B".toList, 1), ("/p/A/B/C".toList, 2)]

/-- The store of the nesting example: the three packages as the walk left them,
without root. -/
def nestedHeap : Heap := fun p =>
  if p = 0 then { Id := "A", Type_ := "app", PluginDir := "/p/A".toList }
  else if p = 1 then { Id := "B", Type_ := "panel", PluginDir := "/p/A/B".toList }
  else { Id := "C", Type_ := "panel", PluginDir := "/p/A/B/C".toList }

/-- A store with one backend descriptor `I` whose signature state is Internal,
without root. -/
def internalHeap : Heap := fun _ =>
  { Id := "I", Type_ := "datasource", PluginDir := "/p/I".toList, Backend := true,
    Signature := PluginSignatureInternal }

/-- A store with a package `A` at `/p/A` (address 0) whose signature state is
Internal and a backend package `B` at `/p/A/B` (every other address), Unsigned,
with root `A`. -/
def internalRootHeap : Heap := fun p =>
  if p = 0 then { Id := "A", Type_ := "app", PluginDir := "/p/A".toList,
                  Signature := PluginSignatureInternal }
  else { Id := "B", Type_ := "datasource", PluginDir := "/p/A/B".toList, Backend := true,
         Signature := PluginSignatureUnsigned, Root := some 0 }

/-! ## The first pass of `scan`: the walker -/

/-- The function `filepath.Dir` on unix (Go standard library): the path up to
its last separator, cleaned. -/
def Dir (path : Path) : Path :=
  Clean ((path.reverse.dropWhile (fun c => decide (c ≠ Separator))).reverse)

/-- The interface `os.FileInfo`: the two methods the walker calls. -/
structure FileInfo where
  Name : String
  IsDir : Bool
  deriving DecidableEq, Repr, Inhabited

/-- The struct `plugins.PluginSignatureState`, the result of
`getPluginSignatureState`: the fields `loadPlugin` copies (`Type_` is the field
`Type`). -/
structure PluginSignatureState where
  Status : PluginSignature
  Type_ : String := ""
  SigningOrg : String := ""
  deriving DecidableEq, Repr, Inhabited

/-- The collaborators of the first pass outside the sources: `os.Open` (its
error, if any), the decoding of the manifest into a zero `PluginBase`
(`json.Decoder.Decode`), the list of files below a directory (what
`collectPluginFilesWithin`, manager.go 584-600, reads from the file system),
the function `getPluginSignatureState`, and the address at which the variable
`pluginCommon` of `loadPlugin` is allocated. -/
structure Disk where
  osOpen : Path → Option GoError
  Decode : Path → Except GoError PluginBase
  collectPluginFilesWithin : Path → Except GoError (List Path)
  getPluginSignatureState : PluginBase → Except GoError PluginSignatureState
  newAddress : PluginScanner → Heap → Ptr

/-- `PluginScanner.loadPlugin` (manager.go 405-450): the returned error (nil is
`none`), the scanner and the store. -/
def PluginScanner.loadPlugin (disk : Disk) (s : PluginScanner) (h : Heap)
    (pluginJSONFilePath : Path) : Option GoError × PluginScanner × Heap :=
  let currentDir := Dir pluginJSONFilePath
  match disk.osOpen pluginJSONFilePath with
  | some err => (some err, s, h)
  | none =>
    match disk.Decode pluginJSONFilePath with
    | Except.error err => (some err, s, h)
    | Except.ok pluginCommon =>
      if pluginCommon.Id = "" ∨ pluginCommon.Type_ = "" then
        (some GoError.missingTypeOrId, s, h)
      else
        let pluginCommon1 := { pluginCommon with PluginDir := Dir pluginJSONFilePath }
        match disk.collectPluginFilesWithin pluginCommon1.PluginDir with
        | Except.error err => (some err, s, h)
        | Except.ok files =>
          let pluginCommon2 := { pluginCommon1 with Files := files }
          match disk.getPluginSignatureState pluginCommon2 with
          | Except.error err => (some err, s, h)
          | Except.ok signatureState =>
            let pluginCommon3 :=
              { pluginCommon2 with
                Signature := signatureState.Status
                SignatureType := signatureState.Type_
                SignatureOrg := signatureState.SigningOrg }
            let p := disk.newAddress s h
            (none, { s with plugins := s.plugins.set currentDir p }, h.write p pluginCommon3)

/-- `PluginScanner.walker` (manager.go 377-403): the returned error (nil is
`none`), the scanner and the store.  `err` is the error argument (nil is
`none`). -/
def PluginScanner.walker (disk : Disk) (s : PluginScanner) (h : Heap) (currentPath : Path)
    (f : FileInfo) (err : Option GoError) : Option GoError × PluginScanner × Heap :=
  match err with
  | some err => (some (GoError.walkReported currentPath err), s, h)
  | none =>
    if f.Name = "node_modules" ∨ f.Name = "Chromium.app" then
      (some GoError.ErrWalkSkipDir, s, h)
    else if f.IsDir = true then (none, s, h)
    else if f.Name ≠ "plugin.json" then (none, s, h)
    else
      match s.loadPlugin disk h currentPath with
      | (some err, s1, h1) => (none, { s1 with errors := s1.errors ++ [err] }, h1)
      | (none, s1, h1) => (none, s1, h1)

/-- A disk with two manifests: `/p/bad/plugin.json` decodes to a descriptor with
an empty id, `/p/good/plugin.json` to the panel `good`; every package is
Unsigned and the new descriptor is put at the address that counts the
descriptors stored so far. -/
def twoManifests : Disk :=
  { osOpen := fun _ => none
    Decode := fun path =>
      if path = "/p/bad/plugin.json".toList then Except.ok { Id := "", Type_ := "panel" }
      else if path = "/p/good/plugin.json".toList then
        Except.ok { Id := "good", Type_ := "panel" }
      else Except.error (GoError.other "unexpected end of JSON input")
    collectPluginFilesWithin := fun _ => Except.ok ["plugin.json".toList]
    getPluginSignatureState := fun _ => Except.ok { Status := PluginSignatureUnsigned }
    newAddress := fun s _ => s.plugins.length }

/-- A host whose walk of `/p` fails on the sub-directory `/p/sub`: reading it is
denied, and `util.Walk` returns what the walker makes of that error. -/
def deniedHost : Host :=
  { GOOS := "linux"
    fsExists := fun _ => Except.ok true
    osOpen := fun _ => none
    Load := fun _ _ _ h => (Except.ok (LoadedPlugin.PanelPlugin 7), h)
    Walk := fun _ scanner h =>
      scanner.walker twoManifests h "/p/sub".toList { Name := "sub", IsDir := true }
        (some GoError.ErrPermission) }

/-- A host whose walk of `/p` fails with an input/output error on `/p` itself. -/
def ioErrorHost : Host :=
  { GOOS := "linux"
    fsExists := fun _ => Except.ok true
    osOpen := fun _ => none
    Load := fun _ _ _ h => (Except.ok (LoadedPlugin.PanelPlugin 7), h)
    Walk := fun _ scanner h =>
      scanner.walker twoManifests h "/p".toList { Name := "p", IsDir := true }
        (some (GoError.other "input/output error")) }

/-! ## Plugin settings (`queries.go`) -/

/-- The struct `models.PluginSettingInfoDTO`. -/
structure PluginSettingInfoDTO where
  OrgId : Int := 0
  PluginId : String := ""
  Enabled : Bool := false
  Pinned : Bool := false
  PluginVersion : String := ""
  deriving DecidableEq, Repr, Inhabited

/-- `PluginManager.GetPluginSettings` (queries.go 9-53).  `Dispatch` is the
result of `bus.Dispatch(&query)`: an error, or the stored settings
`query.Result` of the organisation; `AutoEnabled` is the field `AutoEnabled` of
the app plugin at an address.  The loop visits `Plugins` in the order of the
list. -/
def PluginManager.GetPluginSettings (_pm : PluginManager) (g : Globals) (h : Heap)
    (AutoEnabled : Ptr → Bool) (Dispatch : Int → Except GoError (List PluginSettingInfoDTO))
    (orgId : Int) : Except GoError (GoMap String PluginSettingInfoDTO) :=
  match Dispatch orgId with
  | Except.error err => Except.error err
  | Except.ok result =>
    let pluginMap0 : GoMap String PluginSettingInfoDTO :=
      result.foldl (fun pluginMap plug => pluginMap.set plug.PluginId plug) []
    Except.ok
      (g.Plugins.foldl
        (fun pluginMap kv =>
          let pluginDef := h kv.2
          -- ignore entries that exists
          match pluginMap.get? pluginDef.Id with
          | some _ => pluginMap
          | none =>
            -- default to enabled true
            let opt : PluginSettingInfoDTO :=
              { PluginId := pluginDef.Id, OrgId := orgId, Enabled := true }
            -- apps are disabled by default unless autoEnabled: true
            let opt1 :=
              match g.Apps.get? pluginDef.Id with
              | some app => { opt with Enabled := AutoEnabled app, Pinned := AutoEnabled app }
              | none => opt
            -- if it's included in app check app settings
            let opt2 :=
              if pluginDef.IncludedInAppId ≠ "" then
                -- app components are by default disabled
                match pluginMap.get? pluginDef.IncludedInAppId with
                | some appSettings => { opt1 with Enabled := appSettings.Enabled }
                | none => { opt1 with Enabled := false }
              else opt1
            pluginMap.set pluginDef.Id opt2)
        pluginMap0)

/-- The store of the app example: the auto-enabled app `A` (address 10) and the
panel `P` (every other address), a component of `A`. -/
def appHeap : Heap := fun p =>
  if p = 10 then { Id := "A", Type_ := "app", PluginDir := "/p/A".toList }
  else { Id := "P", Type_ := "panel", PluginDir := "/p/A/P".toList, IncludedInAppId := "A" }

/-- The registries of the app example, with `Plugins` visited app first. -/
def appFirstGlobals : Globals :=
  { Apps := [("A", 10)], Panels := [("P", 11)], Plugins := [("A", 10), ("P", 11)],
    PluginTypes := initPluginTypes }

/-- The registries of the app example, with `Plugins` visited panel first. -/
def panelFirstGlobals : Globals :=
  { Apps := [("A", 10)], Panels := [("P", 11)], Plugins := [("P", 11), ("A", 10)],
    PluginTypes := initPluginTypes }

/-! ## The candidates of the ancestry loop -/

/-- The element `..`. -/
def dotdot : Path := ['.', '.']

/-- The relative path with the elements `es`: `e1/e2/.../en`, and the empty
string for no element. -/
def relPath (es : List Path) : Path := stringsJoin es Separator

/-- The elements of a clean relative path: elements `..` in front, real
elements behind them. -/
def relShape (es : List Path) : Prop :=
  ∃ ds rs : List Path, es = ds ++ rs ∧ (∀ x ∈ ds, x = dotdot) ∧ (∀ x ∈ rs, realElem x)

/-- The paths that the ancestry loop looks up, in order, when it starts from
the path built by `build` from the elements `pre` and runs over the elements
`rest`. -/
def loopCands (build : List Path → Path) : List Path → List Path → List Path
  | _, [] => []
  | pre, r :: rest => build (pre ++ [r]) :: loopCands build (pre ++ [r]) rest

/-- The descriptor stored at `k` with address `q` is at the top of the scan: the
ancestry step finds no root for it, or finds the descriptor itself. -/
def TopLevel (goos : String) (plugins : GoMap Path Ptr) (k : Path) (q : Ptr) : Prop :=
  scanFindRoot goos plugins k = none ∨ scanFindRoot goos plugins k = some q

/-- The loaders allocate: `Load` leaves the scan-local descriptors as they are,
and the plugin it returns is not one of them. -/
def LoadersAllocate (host : Host) (plugins : GoMap Path Ptr) : Prop :=
  ∀ (t : PluginGoType) (path : Path) (pluginBase : Ptr) (h : Heap),
    (∀ q ∈ plugins.map Prod.snd, (host.Load t path pluginBase h).2 q = h q) ∧
    (∀ plug pb, (host.Load t path pluginBase h).1 = Except.ok plug →
      plug.pluginBase = some pb → pb ∉ plugins.map Prod.snd)

/-- The validation part of a round of the second pass (manager.go 229-245) in
the state `st`: the decision of `validateSignature`, and the descriptor it
leaves, with its root and its final signature state. -/
def scanValidate (host : Host) (st : ScanState) (dpath : Path) (plugin : Ptr) :
    Outcome (Option PluginError) × PluginBase :=
  ((st.scanner.validateSignature
      (scanAssignRoot host.GOOS st.scanner.plugins st.heap dpath plugin) plugin).1,
    (st.scanner.validateSignature
      (scanAssignRoot host.GOOS st.scanner.plugins st.heap dpath plugin) plugin).2.2 plugin)

/-- What every round of a second pass keeps: the scan-local map `m` and the
settings of the scanner `s0`; and for every descriptor at the top of the scan
its signature state in the store `h0`, and no root other than itself. -/
def ScanTop (goos : String) (m : GoMap Path Ptr) (s0 : PluginScanner) (h0 : Heap)
    (st : ScanState) : Prop :=
  st.scanner.plugins = m ∧ st.scanner.cfg = s0.cfg ∧
    st.scanner.requireSigned = s0.requireSigned ∧
    st.scanner.allowUnsignedPluginsCondition = s0.allowUnsignedPluginsCondition ∧
    ∀ k q, (k, q) ∈ m → TopLevel goos m k q →
      (st.heap q).Signature = (h0 q).Signature ∧
        ((st.heap q).Root = none ∨ (st.heap q).Root = some q)

/-- What the rounds of a second pass on other descriptors keep: `ScanTop`, and
the descriptor at address `p` as the store `h0` holds it. -/
def ScanInv (goos : String) (m : GoMap Path Ptr) (s0 : PluginScanner) (h0 : Heap) (p : Ptr)
    (st : ScanState) : Prop :=
  ScanTop goos m s0 h0 st ∧ st.heap p = h0 p

/-- A host on which nothing fails and every loader returns the panel at address
7. -/
def orderHost : Host :=
  { GOOS := "linux"
    fsExists := fun _ => Except.ok true
    osOpen := fun _ => none
    Load := fun _ _ _ h => (Except.ok (LoadedPlugin.PanelPlugin 7), h)
    Walk := fun _ scanner h => (none, scanner, h) }

/-- The store of the order example: the package `A` at `/p/A` (address 0) is
Invalid and not backend-capable, the backend packages `B` at `/p/A/B`
(address 1) and `C` at `/p/A/B/C` (address 2) are Unsigned; every other address
holds the panel that the loaders return. -/
def orderHeap : Heap := fun p =>
  if p = 0 then { Id := "A", Type_ := "app", PluginDir := "/p/A".toList,
                  Signature := PluginSignatureInvalid }
  else if p = 1 then { Id := "B", Type_ := "datasource", PluginDir := "/p/A/B".toList,
                       Backend := true, Signature := PluginSignatureUnsigned }
  else if p = 2 then { Id := "C", Type_ := "datasource", PluginDir := "/p/A/B/C".toList,
                       Backend := true, Signature := PluginSignatureUnsigned }
  else { Id := "A", Type_ := "panel" }

/-- The state of the order example after the walk, for a scan that enforces
signing. -/
def orderState : ScanState :=
  { pm := {}
    g := { PluginTypes := initPluginTypes }
    scanner := { requireSigned := true, plugins := nestedPlugins }
    heap := orderHeap }

/-- The scan-local map of the abort example: packages discovered at `/p/A`
(address 0), `/p/A/B` (address 1) and `/p/X` (address 2). -/
def abortPlugins : GoMap Path Ptr :=
  [("/p/A".toList, 0), ("/p/A/B".toList, 1), ("/p/X".toList, 2)]

/-- The store of the abort example: the package `A` at `/p/A` (address 0) is
Invalid and not backend-capable, the backend package `B` at `/p/A/B`
(address 1) is Unsigned, and the package `X` at `/p/X` (address 2) is Valid and
has the type `foo`, which is not a plugin type; every other address holds the
panel that the loaders return. -/
def abortHeap : Heap := fun p =>
  if p = 0 then { Id := "A", Type_ := "app", PluginDir := "/p/A".toList,
                  Signature := PluginSignatureInvalid }
  else if p = 1 then { Id := "B", Type_ := "datasource", PluginDir := "/p/A/B".toList,
                       Backend := true, Signature := PluginSignatureUnsigned }
  else if p = 2 then { Id := "X", Type_ := "foo", PluginDir := "/p/X".toList,
                       Signature := PluginSignatureValid }
  else { Id := "A", Type_ := "panel" }

/-- The state of the abort example after the walk, for a scan that enforces
signing. -/
def abortState : ScanState :=
  { pm := {}
    g := { PluginTypes := initPluginTypes }
    scanner := { requireSigned := true, plugins := abortPlugins }
    heap := abortHeap }

/-! # Theorems -/

/-! ## Lemmas on maps -/

/-- Reading a key just written gives the written value. -/
theorem GoMap.get?_set_self {κ V : Type} [DecidableEq κ] (m : GoMap κ V) (k : κ) (v : V) :
    (m.set k v).get? k = some v := by
  induction m with
  | nil => simp [GoMap.set, GoMap.get?]
  | cons kv rest ih =>
    obtain ⟨k0, v0⟩ := kv
    by_cases hk : k0 = k
    · simp [GoMap.set, GoMap.get?, hk]
    · simp [GoMap.set, GoMap.get?, hk, ih]

/-- Writing a key does not change what another key reads. -/
theorem GoMap.get?_set_ne {κ V : Type} [DecidableEq κ] (m : GoMap κ V) (k k1 : κ) (v : V)
    (hne : k1 ≠ k) : (m.set k v).get? k1 = m.get? k1 := by
  induction m with
  | nil =>
    have : ¬ k = k1 := fun e => hne e.symm
    simp [GoMap.set, GoMap.get?, this]
  | cons kv rest ih =>
    obtain ⟨k0, v0⟩ := kv
    by_cases hk : k0 = k
    · have : ¬ k = k1 := fun e => hne e.symm
      subst hk
      simp [GoMap.set, GoMap.get?, this]
    · by_cases hk1 : k0 = k1
      · subst hk1
        simp [GoMap.set, GoMap.get?, hne]
      · simp [GoMap.set, GoMap.get?, hk, hk1, ih]

/-- Writing a key keeps the keys, or adds the key at the end. -/
theorem GoMap.keys_set {κ V : Type} [DecidableEq κ] (m : GoMap κ V) (k : κ) (v : V) :
    (m.set k v).keys = if k ∈ m.keys then m.keys else m.keys ++ [k] := by
  induction m with
  | nil => simp [GoMap.set, GoMap.keys]
  | cons kv rest ih =>
    obtain ⟨k0, v0⟩ := kv
    by_cases hk : k0 = k
    · subst hk
      simp [GoMap.set, GoMap.keys]
    · have hk' : ¬ k = k0 := fun e => hk e.symm
      simp only [GoMap.keys] at ih
      simp only [GoMap.set, hk, if_false, GoMap.keys, List.map_cons, List.mem_cons, hk', false_or, ih]
      split <;> simp

/-- Writing a key keeps the keys of a map distinct. -/
theorem GoMap.nodup_keys_set {κ V : Type} [DecidableEq κ] (m : GoMap κ V) (k : κ) (v : V)
    (hm : m.keys.Nodup) : (m.set k v).keys.Nodup := by
  rw [GoMap.keys_set]
  split
  · exact hm
  · rename_i hk
    exact List.Nodup.append hm (List.nodup_singleton k) (by simpa using hk)

/-- A key that reads a value is a key of the map. -/
theorem GoMap.mem_keys_of_get? {κ V : Type} [DecidableEq κ] (m : GoMap κ V) (k : κ) (v : V)
    (hget : m.get? k = some v) : k ∈ m.keys := by
  induction m with
  | nil => simp [GoMap.get?] at hget
  | cons kv rest ih =>
    obtain ⟨k0, v0⟩ := kv
    by_cases hk : k0 = k
    · simp [GoMap.keys, hk]
    · simp only [GoMap.get?, hk, if_false] at hget
      have := ih hget
      simp only [GoMap.keys] at this
      simp [GoMap.keys, this]

/-- The loop of `ScanningErrors` makes one entry out of each binding of the map. -/
theorem ScanningErrors_eq_map (pm : PluginManager) :
    pm.ScanningErrors =
      pm.pluginScanningErrors.map
        (fun ide => ({ ErrorCode := ide.2.ErrorCode, PluginID := ide.1 } : PluginError)) := by
  unfold PluginManager.ScanningErrors
  have key : ∀ (m : GoMap String PluginError) (acc : List PluginError),
      List.foldl (fun scanningErrs ide =>
        scanningErrs ++ [({ ErrorCode := ide.2.ErrorCode, PluginID := ide.1 } : PluginError)]) acc m
      = acc ++ m.map (fun ide => ({ ErrorCode := ide.2.ErrorCode, PluginID := ide.1 } : PluginError)) := by
    intro m
    induction m with
    | nil => intro acc; simp
    | cons kv rest ih => intro acc; simp [List.foldl_cons, ih]
  simpa using key pm.pluginScanningErrors []

/-- In a map with distinct keys, `ScanningErrors` has exactly one entry for a stored id. -/
theorem ScanningErrors_filter (pm : PluginManager) (hm : pm.pluginScanningErrors.keys.Nodup)
    (id : String) (e : PluginError) (hget : pm.pluginScanningErrors.get? id = some e) :
    pm.ScanningErrors.filter (fun x => decide (x.PluginID = id)) =
      [{ ErrorCode := e.ErrorCode, PluginID := id }] := by
  rw [ScanningErrors_eq_map]
  generalize pm.pluginScanningErrors = m at hm hget
  induction m with
  | nil => simp [GoMap.get?] at hget
  | cons kv rest ih =>
    obtain ⟨k0, v0⟩ := kv
    simp only [GoMap.keys, List.map_cons, List.nodup_cons] at hm
    by_cases hk : k0 = id
    · subst hk
      simp only [GoMap.get?, if_true, Option.some.injEq] at hget
      subst hget
      have hnone : ∀ x ∈ rest, ¬ x.1 = k0 := by
        intro x hx hxe
        exact hm.1 (List.mem_map.2 ⟨x, hx, hxe⟩)
      simp [List.filter_cons, List.filter_eq_nil_iff]
      intro a x x1 hx ha
      subst ha
      exact hnone (x, x1) hx
    · simp only [GoMap.get?, hk, if_false] at hget
      have := ih hm.2 hget
      simp [List.filter_cons, hk, this]


/-! ## Lemmas on `validateSignature` -/

/-- The function `validateSignature` is the inheritance step followed by the
decision. -/
theorem validateSignature_eq_enforceStep (s : PluginScanner) (h : Heap) (p : Ptr) :
    s.validateSignature h p = enforceStep s (inheritStep h p) p := by
  unfold PluginScanner.validateSignature enforceStep inheritStep
  by_cases hv : (h p).Signature = PluginSignatureValid
  · simp [hv]
  · cases hr : (h p).Root with
    | none => simp [hv, hr]
    | some root =>
      by_cases hc : (h p).IsCorePlugin = true ∨ (h p).Signature = PluginSignatureInternal
      · simp only [hv, hr, if_false, hc, if_true]
        simp
      · simp only [hv, hr, if_false, hc]
        by_cases hi : (Heap.write h p { h p with Signature := (h root).Signature } p).Signature
            = PluginSignatureValid
        · simp [hi]
        · simp [hi]

/-- The inheritance step changes at most the signature state of the descriptor. -/
theorem inheritStep_self_eq (h : Heap) (p : Ptr) :
    (inheritStep h p) p = { h p with Signature := ((inheritStep h p) p).Signature } := by
  unfold inheritStep
  by_cases hv : (h p).Signature = PluginSignatureValid
  · rw [if_pos hv]
  · rw [if_neg hv]
    cases (h p).Root with
    | none => rfl
    | some root =>
      by_cases hc : (h p).IsCorePlugin = true ∨ (h p).Signature = PluginSignatureInternal
      · simp only [hc, if_true]
      · simp only [hc, if_false]; simp [Heap.write]

/-- The inheritance step keeps the backend flag and the id of the descriptor. -/
theorem inheritStep_self (h : Heap) (p : Ptr) :
    ((inheritStep h p) p).Backend = (h p).Backend ∧ ((inheritStep h p) p).Id = (h p).Id := by
  rw [inheritStep_self_eq]
  exact ⟨rfl, rfl⟩

/-- The inheritance step leaves every other descriptor alone. -/
theorem inheritStep_other (h : Heap) (p q : Ptr) (hq : q ≠ p) : (inheritStep h p) q = h q := by
  unfold inheritStep
  by_cases hv : (h p).Signature = PluginSignatureValid
  · rw [if_pos hv]
  · rw [if_neg hv]
    cases (h p).Root with
    | none => rfl
    | some root =>
      by_cases hc : (h p).IsCorePlugin = true ∨ (h p).Signature = PluginSignatureInternal
      · simp only [hc, if_true]
      · simp only [hc, if_false]; simp [Heap.write, hq]

/-- The decision does not write to the store. -/
theorem heap_of_enforceStep (s : PluginScanner) (h1 : Heap) (p : Ptr) :
    (enforceStep s h1 p).2.2 = h1 := by
  unfold enforceStep
  split
  · rfl
  · split
    · rfl
    · split
      · split <;> rfl
      · rfl
      · rfl
      · rfl

/-- The store after `validateSignature` is the store after the inheritance step. -/
theorem heap_of_validateSignature (s : PluginScanner) (h : Heap) (p : Ptr) :
    (s.validateSignature h p).2.2 = inheritStep h p := by
  rw [validateSignature_eq_enforceStep, heap_of_enforceStep]

/-! ## The trust validator -/

/-- C1 (trust inheritance): a descriptor `b` that is not Valid, not core and not
Internal, whose root `a` is Valid, leaves `validateSignature` accepted (nil is
returned) with signature state Valid; the scanner, and with it the error list,
is unchanged and so is every other descriptor.  The backend flag, the
enforce-signing flag and the override policies are arbitrary. -/
theorem validateSignature_inherits_valid (s : PluginScanner) (h : Heap) (b a : Ptr)
    (hsig : (h b).Signature ≠ PluginSignatureValid)
    (hcore : (h b).IsCorePlugin = false)
    (hint : (h b).Signature ≠ PluginSignatureInternal)
    (hroot : (h b).Root = some a)
    (hA : (h a).Signature = PluginSignatureValid) :
    (s.validateSignature h b).1 = Outcome.returned none ∧
      (s.validateSignature h b).2.1.errors = s.errors ∧
      ((s.validateSignature h b).2.2 b).Signature = PluginSignatureValid ∧
      ∀ q, q ≠ b → (s.validateSignature h b).2.2 q = h q := by
  have hval : s.validateSignature h b =
      (Outcome.returned none, s,
        h.write b { h b with Signature := PluginSignatureValid }) := by
    simp [PluginScanner.validateSignature, hsig, hcore, hint, hroot, hA, Heap.write]
  rw [hval]
  refine ⟨rfl, rfl, ?_, ?_⟩
  · simp [Heap.write]
  · intro q hq
    simp [Heap.write, hq]

/-- The witness of C1: `A` at `/p/A` Valid, `B` at `/p/A/B` Unsigned, under a
scan that enforces signing. -/
theorem validateSignature_inherits_valid_witness :
    (inheritHeap 1).Signature = PluginSignatureUnsigned ∧
      (inheritHeap 1).Root = some 0 ∧
      (inheritHeap 0).Signature = PluginSignatureValid ∧
      (({ requireSigned := true } : PluginScanner).validateSignature inheritHeap 1).1 =
        Outcome.returned none ∧
      (({ requireSigned := true } : PluginScanner).validateSignature inheritHeap 1).2.1.errors
        = [] ∧
      ((({ requireSigned := true } : PluginScanner).validateSignature inheritHeap 1).2.2 1).Signature
        = PluginSignatureValid :=
  have w := validateSignature_inherits_valid { requireSigned := true } inheritHeap 1 0
    (by decide) (by decide) (by decide) (by decide) (by decide)
  ⟨by decide, by decide, by decide, w.1, w.2.1, w.2.2.1⟩

/-- C3 (enforcement toggle): a backend descriptor without root that is Unsigned,
when no override applies (no predicate, not development mode, id not in the
allow-list), is rejected with `signatureMissing` and one error is appended when
the scan enforces signing; under the same scanner not enforcing signing it is
accepted and nothing is appended. -/
theorem validateSignature_enforcement_toggle (s : PluginScanner) (h : Heap) (p : Ptr)
    (hb : (h p).Backend = true) (hroot : (h p).Root = none)
    (hsig : (h p).Signature = PluginSignatureUnsigned)
    (hcond : s.allowUnsignedPluginsCondition = none)
    (hdev : s.cfg.Env ≠ settingDev)
    (hlist : (h p).Id ∉ s.cfg.PluginsAllowUnsigned) :
    ({ s with requireSigned := true }.validateSignature h p).1 =
        Outcome.returned (some { ErrorCode := signatureMissing }) ∧
      ({ s with requireSigned := true }.validateSignature h p).2.1.errors =
        s.errors ++ [GoError.pluginUnsigned (h p).Id] ∧
      ({ s with requireSigned := false }.validateSignature h p).1 = Outcome.returned none ∧
      ({ s with requireSigned := false }.validateSignature h p).2.1.errors = s.errors := by
  have hallow :
      ({ s with requireSigned := true } : PluginScanner).allowUnsigned (h p) = false := by
    simp only [PluginScanner.allowUnsigned, hcond, hdev, if_false, List.any_eq_false,
      decide_eq_true_eq]
    intro x hx hxe
    exact hlist (hxe ▸ hx)
  refine ⟨?_, ?_, ?_, ?_⟩ <;>
    simp [PluginScanner.validateSignature, hb, hroot, hsig, hallow]

/-- The witness of C3: the descriptor `U` under a scanner without overrides. -/
theorem validateSignature_enforcement_toggle_witness :
    (unsignedHeap 0).Backend = true ∧ (unsignedHeap 0).Root = none ∧
      (unsignedHeap 0).Signature = PluginSignatureUnsigned ∧
      (({ requireSigned := true } : PluginScanner).validateSignature unsignedHeap 0).1 =
        Outcome.returned (some { ErrorCode := signatureMissing }) ∧
      (({ requireSigned := true } : PluginScanner).validateSignature unsignedHeap 0).2.1.errors =
        [GoError.pluginUnsigned "U"] ∧
      (({ requireSigned := false } : PluginScanner).validateSignature unsignedHeap 0).1 =
        Outcome.returned none ∧
      (({ requireSigned := false } : PluginScanner).validateSignature unsignedHeap 0).2.1.errors =
        [] :=
  ⟨by decide, by decide, by decide,
    validateSignature_enforcement_toggle {} unsignedHeap 0 (by decide) (by decide) (by decide)
      rfl (by decide) (by decide)⟩

/-- C4, as stated, fails: with the id in the allow-list and signing enforced, a
caller-supplied predicate that returns false rejects the Unsigned backend
descriptor `U` with `signatureMissing`; and the Unsigned backend descriptor `B`,
whose root is Invalid, is rejected with `signatureInvalid`. -/
theorem validateSignature_allowlist_overruled :
    ((unsignedHeap 0).Backend = true ∧
      (unsignedHeap 0).Signature = PluginSignatureUnsigned ∧
      predicateScanner.requireSigned = true ∧
      (unsignedHeap 0).Id ∈ predicateScanner.cfg.PluginsAllowUnsigned ∧
      (predicateScanner.validateSignature unsignedHeap 0).1 =
        Outcome.returned (some { ErrorCode := signatureMissing })) ∧
    ((invalidRootHeap 1).Backend = true ∧
      (invalidRootHeap 1).Signature = PluginSignatureUnsigned ∧
      allowListScanner.requireSigned = true ∧
      (invalidRootHeap 1).Id ∈ allowListScanner.cfg.PluginsAllowUnsigned ∧
      (allowListScanner.validateSignature invalidRootHeap 1).1 =
        Outcome.returned (some { ErrorCode := signatureInvalid })) := by
  decide

/-- C4, amended (override precedence): a backend descriptor that is Unsigned
before and after the inheritance step, under a scan that enforces signing and
with its id in the allow-list, is accepted exactly when the caller-supplied
predicate is absent or returns true for it, whatever the development-mode flag;
an accepted descriptor appends no error.  When a predicate is supplied and
returns false for the descriptor, the descriptor is rejected with
`signatureMissing` and exactly one error, the unsigned-plugin error of its id,
is appended. -/
theorem validateSignature_allowlist (s : PluginScanner) (h : Heap) (p : Ptr)
    (hb : (h p).Backend = true) (hsig : (h p).Signature = PluginSignatureUnsigned)
    (hafter : ((s.validateSignature h p).2.2 p).Signature = PluginSignatureUnsigned)
    (hreq : s.requireSigned = true)
    (hlist : (h p).Id ∈ s.cfg.PluginsAllowUnsigned) :
    ((s.validateSignature h p).1 = Outcome.returned none ↔
        ∀ cond, s.allowUnsignedPluginsCondition = some cond → cond (h p) = true) ∧
      ((s.validateSignature h p).1 = Outcome.returned none →
        (s.validateSignature h p).2.1.errors = s.errors) ∧
      (∀ cond, s.allowUnsignedPluginsCondition = some cond → cond (h p) = false →
        (s.validateSignature h p).1 =
            Outcome.returned (some { ErrorCode := signatureMissing }) ∧
          (s.validateSignature h p).2.1.errors =
            s.errors ++ [GoError.pluginUnsigned (h p).Id]) := by
  rw [heap_of_validateSignature] at hafter
  have hself : (inheritStep h p) p = h p := by
    rw [inheritStep_self_eq, hafter, ← hsig]
  rw [validateSignature_eq_enforceStep]
  have hb1 : ((inheritStep h p) p).Backend = true := by rw [hself]; exact hb
  cases hc : s.allowUnsignedPluginsCondition with
  | none =>
    have hallow : s.allowUnsigned (h p) = true := by
      simp only [PluginScanner.allowUnsigned, hc]
      split
      · rfl
      · simp only [List.any_eq_true, decide_eq_true_eq]
        exact ⟨_, hlist, rfl⟩
    simp [enforceStep, hsig, hb, hreq, hself, hallow]
  | some cond =>
    have hallow : s.allowUnsigned (h p) = cond (h p) := by
      simp only [PluginScanner.allowUnsigned, hc]
    cases hcp : cond (h p) <;>
      simp [enforceStep, hsig, hb, hreq, hself, hallow, hcp]

/-- The witness of C4 amended: `U` is in the allow-list; with no predicate
supplied it is accepted and no error is appended, and with a predicate that
returns false it is rejected with `signatureMissing` and one error is
appended. -/
theorem validateSignature_allowlist_witness :
    ((unsignedHeap 0).Backend = true ∧
      (unsignedHeap 0).Signature = PluginSignatureUnsigned ∧
      allowListScanner.requireSigned = true ∧
      (unsignedHeap 0).Id ∈ allowListScanner.cfg.PluginsAllowUnsigned ∧
      (allowListScanner.validateSignature unsignedHeap 0).1 = Outcome.returned none ∧
      (allowListScanner.validateSignature unsignedHeap 0).2.1.errors = []) ∧
    (predicateScanner.requireSigned = true ∧
      (unsignedHeap 0).Id ∈ predicateScanner.cfg.PluginsAllowUnsigned ∧
      (∃ cond, predicateScanner.allowUnsignedPluginsCondition = some cond ∧
        cond (unsignedHeap 0) = false) ∧
      (predicateScanner.validateSignature unsignedHeap 0).1 =
        Outcome.returned (some { ErrorCode := signatureMissing }) ∧
      (predicateScanner.validateSignature unsignedHeap 0).2.1.errors =
        [GoError.pluginUnsigned "U"]) :=
  have w := validateSignature_allowlist allowListScanner unsignedHeap 0
    (by decide) (by decide) (by decide) (by decide) (by decide)
  have hacc := w.1.2 (fun cond hc => by cases hc)
  have v := (validateSignature_allowlist predicateScanner unsignedHeap 0
    (by decide) (by decide) (by decide) (by decide) (by decide)).2.2 _ rfl rfl
  ⟨⟨by decide, by decide, by decide, by decide, hacc, w.2.1 hacc⟩,
    ⟨by decide, by decide, ⟨_, rfl, rfl⟩, v.1, v.2⟩⟩

/-- C5 (unconditional rejection): under a scan that enforces signing, a backend
descriptor whose signature state after the inheritance step is Invalid is
rejected with `signatureInvalid`, and one whose state is then Modified with
`signatureModified`; exactly one error is appended.  The override policies are
arbitrary. -/
theorem validateSignature_rejects_invalid_modified (s : PluginScanner) (h : Heap) (p : Ptr)
    (hb : (h p).Backend = true) (hreq : s.requireSigned = true) :
    (((s.validateSignature h p).2.2 p).Signature = PluginSignatureInvalid →
        (s.validateSignature h p).1 = Outcome.returned (some { ErrorCode := signatureInvalid }) ∧
        (s.validateSignature h p).2.1.errors =
          s.errors ++ [GoError.pluginInvalidSignature (h p).Id]) ∧
    (((s.validateSignature h p).2.2 p).Signature = PluginSignatureModified →
        (s.validateSignature h p).1 = Outcome.returned (some { ErrorCode := signatureModified }) ∧
        (s.validateSignature h p).2.1.errors =
          s.errors ++ [GoError.pluginModifiedSignature (h p).Id]) := by
  rw [validateSignature_eq_enforceStep, heap_of_enforceStep]
  have hb1 : ((inheritStep h p) p).Backend = true := (inheritStep_self h p).1.trans hb
  rw [← (inheritStep_self h p).2]
  generalize inheritStep h p = h1 at hb1 ⊢
  constructor <;> intro hs <;> simp [enforceStep, hs, hb1, hreq]

/-- The witness of C5: `B` inherits Invalid from its root, under a scanner in
development mode whose predicate allows nothing, and `M` is Modified, under
the scanner `allowListScanner`; both are rejected. -/
theorem validateSignature_rejects_invalid_modified_witness :
    ((predicateScanner.validateSignature invalidRootHeap 1).2.2 1).Signature =
        PluginSignatureInvalid ∧
      (predicateScanner.validateSignature invalidRootHeap 1).1 =
        Outcome.returned (some { ErrorCode := signatureInvalid }) ∧
      (predicateScanner.validateSignature invalidRootHeap 1).2.1.errors =
        [GoError.pluginInvalidSignature "B"] ∧
      ((allowListScanner.validateSignature modifiedHeap 0).2.2 0).Signature =
        PluginSignatureModified ∧
      (allowListScanner.validateSignature modifiedHeap 0).1 =
        Outcome.returned (some { ErrorCode := signatureModified }) ∧
      (allowListScanner.validateSignature modifiedHeap 0).2.1.errors =
        [GoError.pluginModifiedSignature "M"] :=
  have w1 := (validateSignature_rejects_invalid_modified predicateScanner invalidRootHeap 1
    (by decide) (by decide)).1 (by decide)
  have w2 := (validateSignature_rejects_invalid_modified allowListScanner modifiedHeap 0
    (by decide) (by decide)).2 (by decide)
  ⟨by decide, w1.1, w1.2, by decide, w2.1, w2.2⟩

/-- C6 (signing is enforced only for backend packages under signing-required
scans): a descriptor that is not backend-capable, or any descriptor under a
scan that does not enforce signing, is accepted and no error is appended,
whatever its signature state. -/
theorem validateSignature_not_enforced (s : PluginScanner) (h : Heap) (p : Ptr)
    (hoff : (h p).Backend = false ∨ s.requireSigned = false) :
    (s.validateSignature h p).1 = Outcome.returned none ∧
      (s.validateSignature h p).2.1.errors = s.errors := by
  rw [validateSignature_eq_enforceStep]
  have hoff1 : ((inheritStep h p) p).Backend = false ∨ s.requireSigned = false := by
    rw [(inheritStep_self h p).1]; exact hoff
  generalize inheritStep h p = h1 at hoff1 ⊢
  by_cases hv : (h1 p).Signature = PluginSignatureValid
  · simp [enforceStep, hv]
  · simp only [enforceStep, hv, if_false, if_pos hoff1, and_self]

/-- The witness of C6: the Invalid descriptor `N`, not backend-capable, under a
scan that enforces signing; and the Modified backend descriptor `M` under a scan
that does not. -/
theorem validateSignature_not_enforced_witness :
    ((frontendHeap 0).Backend = false ∧
      (frontendHeap 0).Signature = PluginSignatureInvalid ∧
      (({ requireSigned := true } : PluginScanner).validateSignature frontendHeap 0).1 =
        Outcome.returned none ∧
      (({ requireSigned := true } : PluginScanner).validateSignature frontendHeap 0).2.1.errors
        = []) ∧
    ((modifiedHeap 0).Signature = PluginSignatureModified ∧
      (({ requireSigned := false } : PluginScanner).validateSignature modifiedHeap 0).1 =
        Outcome.returned none) :=
  ⟨⟨by decide, by decide,
      validateSignature_not_enforced { requireSigned := true } frontendHeap 0
        (Or.inl (by decide))⟩,
    by decide,
    (validateSignature_not_enforced { requireSigned := false } modifiedHeap 0
      (Or.inr (by decide))).1⟩

/-! ## The second pass of `scan` -/

/-- The ancestry step writes only the field `Root`. -/
theorem scanAssignRoot_Id (goos : String) (plugins : GoMap Path Ptr) (h : Heap) (dpath : Path)
    (plugin : Ptr) : ((scanAssignRoot goos plugins h dpath plugin) plugin).Id = (h plugin).Id := by
  unfold scanAssignRoot
  cases scanFindRoot goos plugins dpath <;> simp [Heap.write]

/-- A round of the second pass whose descriptor is rejected: the state after it. -/
theorem scanBody_rejected (host : Host) (st : ScanState) (dpath : Path) (plugin : Ptr)
    (signingError : PluginError)
    (hrej : (st.scanner.validateSignature
        (scanAssignRoot host.GOOS st.scanner.plugins st.heap dpath plugin) plugin).1 =
          Outcome.returned (some signingError)) :
    scanBody host st dpath plugin =
      (Flow.next,
        { st with
          pm := { st.pm with
            pluginScanningErrors :=
              st.pm.pluginScanningErrors.set (st.heap plugin).Id signingError }
          scanner := (st.scanner.validateSignature
            (scanAssignRoot host.GOOS st.scanner.plugins st.heap dpath plugin) plugin).2.1
          heap := (st.scanner.validateSignature
            (scanAssignRoot host.GOOS st.scanner.plugins st.heap dpath plugin) plugin).2.2 }) := by
  have hid : ((st.scanner.validateSignature
      (scanAssignRoot host.GOOS st.scanner.plugins st.heap dpath plugin) plugin).2.2 plugin).Id
        = (st.heap plugin).Id := by
    rw [heap_of_validateSignature, (inheritStep_self _ _).2, scanAssignRoot_Id]
  unfold scanBody
  rcases hv : st.scanner.validateSignature
      (scanAssignRoot host.GOOS st.scanner.plugins st.heap dpath plugin) plugin with ⟨r, sc, h2⟩
  rw [hv] at hrej hid
  simp only at hrej hid
  subst hrej
  simp only [hv, hid]

/-- C7 (rejected descriptors never reach the registrar): when `validateSignature`
rejects the descriptor of a round of the second pass, the round ends with
`continue`; the rejection is stored under the descriptor's id in
`pluginScanningErrors`; the registries are unchanged and the round is the same
for every loader and file system, so the registrar is not called; the loop goes
on with the remaining descriptors; and `ScanningErrors` then has one entry per
binding of `pluginScanningErrors`, exactly one for each stored id, carrying
that id and its error code.  The map `pluginScanningErrors` has distinct keys,
as every Go map. -/
theorem scan_rejected_not_registered (host : Host) (st : ScanState) (dpath : Path) (plugin : Ptr)
    (rest : List (Path × Ptr)) (signingError : PluginError)
    (hrej : (st.scanner.validateSignature
        (scanAssignRoot host.GOOS st.scanner.plugins st.heap dpath plugin) plugin).1 =
          Outcome.returned (some signingError))
    (hmap : st.pm.pluginScanningErrors.keys.Nodup) :
    (scanBody host st dpath plugin).1 = Flow.next ∧
      (scanBody host st dpath plugin).2.g = st.g ∧
      (scanBody host st dpath plugin).2.pm.pluginScanningErrors =
        st.pm.pluginScanningErrors.set (st.heap plugin).Id signingError ∧
      (∀ host1 : Host, host1.GOOS = host.GOOS →
        scanBody host1 st dpath plugin = scanBody host st dpath plugin) ∧
      scanRange host ((dpath, plugin) :: rest) st =
        scanRange host rest (scanBody host st dpath plugin).2 ∧
      (scanBody host st dpath plugin).2.pm.ScanningErrors.length =
        (scanBody host st dpath plugin).2.pm.pluginScanningErrors.keys.length ∧
      (scanBody host st dpath plugin).2.pm.ScanningErrors.filter
          (fun x => decide (x.PluginID = (st.heap plugin).Id)) =
        [{ ErrorCode := signingError.ErrorCode, PluginID := (st.heap plugin).Id }] ∧
      ∀ (id : String) (e : PluginError),
        (scanBody host st dpath plugin).2.pm.pluginScanningErrors.get? id = some e →
        (scanBody host st dpath plugin).2.pm.ScanningErrors.filter
            (fun x => decide (x.PluginID = id)) =
          [{ ErrorCode := e.ErrorCode, PluginID := id }] := by
  have hbody := scanBody_rejected host st dpath plugin signingError hrej
  have hmap1 : (scanBody host st dpath plugin).2.pm.pluginScanningErrors.keys.Nodup := by
    rw [hbody]
    exact GoMap.nodup_keys_set _ _ _ hmap
  refine ⟨by rw [hbody], by rw [hbody], by rw [hbody], ?_, ?_, ?_, ?_, ?_⟩
  · intro host1 hos
    rw [hbody, scanBody_rejected host1 st dpath plugin signingError (by rw [hos]; exact hrej), hos]
  · rw [scanRange, hbody]
  · rw [ScanningErrors_eq_map, GoMap.keys, List.length_map, List.length_map]
  · apply ScanningErrors_filter _ hmap1
    rw [hbody]
    exact GoMap.get?_set_self _ _ _
  · intro id e hget
    exact ScanningErrors_filter _ hmap1 id e hget

/-- The witness of C7: the Unsigned backend descriptor `U` under a scan that
enforces signing. -/
theorem scan_rejected_not_registered_witness :
    (rejectState.scanner.validateSignature
        (scanAssignRoot dupHost.GOOS rejectState.scanner.plugins rejectState.heap
          "/p/U".toList 0) 0).1 = Outcome.returned (some { ErrorCode := signatureMissing }) ∧
      (scanBody dupHost rejectState "/p/U".toList 0).1 = Flow.next ∧
      (scanBody dupHost rejectState "/p/U".toList 0).2.g = rejectState.g ∧
      (scanBody dupHost rejectState "/p/U".toList 0).2.pm.pluginScanningErrors =
        [("U", { ErrorCode := signatureMissing })] ∧
      (scanBody dupHost rejectState "/p/U".toList 0).2.pm.ScanningErrors.filter
          (fun x => decide (x.PluginID = "U")) =
        [{ ErrorCode := signatureMissing, PluginID := "U" }] :=
  have w := scan_rejected_not_registered dupHost rejectState "/p/U".toList 0 []
    { ErrorCode := signatureMissing } (by decide) List.nodup_nil
  ⟨by decide, w.1, w.2.1, w.2.2.1, w.2.2.2.2.2.2.1⟩

/-! ## The registrar -/

/-- C8 (duplicates are not fatal and the first registration stays in the
combined registry): when the plugin that the loader returns has an id already
in `Plugins`, `loadPlugin` returns nil, appends exactly one
`DuplicatePluginError` naming the new and the existing descriptor to the
scanner's error list, and leaves the map `Plugins` as it was. -/
theorem loadPlugin_duplicate (host : Host) (pm : PluginManager) (g : Globals) (h : Heap)
    (jsonFPath : Path) (pluginBase : Ptr) (scanner : PluginScanner) (loader : PluginGoType)
    (plug : LoadedPlugin) (h1 : Heap) (pb existing : Ptr)
    (hload : host.Load loader jsonFPath pluginBase h = (Except.ok plug, h1))
    (hpb : plug.pluginBase = some pb)
    (hdup : g.Plugins.get? (h1 pb).Id = some existing) :
    (pm.loadPlugin host g h jsonFPath pluginBase scanner loader).1 = Outcome.returned none ∧
      (pm.loadPlugin host g h jsonFPath pluginBase scanner loader).2.2.1.errors =
        scanner.errors ++ [GoError.DuplicatePluginError pb existing] ∧
      (pm.loadPlugin host g h jsonFPath pluginBase scanner loader).2.1.Plugins = g.Plugins ∧
      (pm.loadPlugin host g h jsonFPath pluginBase scanner loader).2.1.Plugins.get? (h1 pb).Id =
        some existing := by
  cases plug <;> simp only [LoadedPlugin.pluginBase, Option.some.injEq] at hpb <;>
    first
      | (subst hpb
         simp [PluginManager.loadPlugin, hload, hdup])
      | cases hpb

/-- The witness of C8: a second data source with the id `ds`. -/
theorem loadPlugin_duplicate_witness :
    dupGlobals.Plugins.get? (dupHeap 2).Id = some 1 ∧
      (({} : PluginManager).loadPlugin dupHost dupGlobals dupHeap "/p/second/plugin.json".toList
        0 {} PluginGoType.DataSourcePlugin).1 = Outcome.returned none ∧
      (({} : PluginManager).loadPlugin dupHost dupGlobals dupHeap "/p/second/plugin.json".toList
        0 {} PluginGoType.DataSourcePlugin).2.2.1.errors = [GoError.DuplicatePluginError 2 1] ∧
      (({} : PluginManager).loadPlugin dupHost dupGlobals dupHeap "/p/second/plugin.json".toList
        0 {} PluginGoType.DataSourcePlugin).2.1.Plugins = [("ds", 1)] :=
  have w := loadPlugin_duplicate dupHost {} dupGlobals dupHeap "/p/second/plugin.json".toList
    0 {} PluginGoType.DataSourcePlugin (LoadedPlugin.DataSourcePlugin 2) dupHeap 2 1 rfl rfl
    (by decide)
  ⟨by decide, w.1, w.2.1, w.2.2.1⟩

/-- C9 fails on the code: `loadPlugin` writes the typed registry before it
checks for a duplicate.  With the data source `ds` registered at address 1, a
second data source with the same id (address 2) is reported as a duplicate and
`Plugins` keeps address 1, but `DataSources` now holds address 2, so
`GetDatasource` returns the second instance. -/
theorem loadPlugin_duplicate_overwrites_datasource :
    ({} : PluginManager).GetDatasource dupGlobals "ds" = some 1 ∧
      (({} : PluginManager).loadPlugin dupHost dupGlobals dupHeap "/p/second/plugin.json".toList
        0 {} PluginGoType.DataSourcePlugin).1 = Outcome.returned none ∧
      (({} : PluginManager).loadPlugin dupHost dupGlobals dupHeap "/p/second/plugin.json".toList
        0 {} PluginGoType.DataSourcePlugin).2.2.1.errors = [GoError.DuplicatePluginError 2 1] ∧
      ({} : PluginManager).GetDatasource
        (({} : PluginManager).loadPlugin dupHost dupGlobals dupHeap
          "/p/second/plugin.json".toList 0 {} PluginGoType.DataSourcePlugin).2.1 "ds" = some 2 ∧
      (({} : PluginManager).loadPlugin dupHost dupGlobals dupHeap "/p/second/plugin.json".toList
        0 {} PluginGoType.DataSourcePlugin).2.1.Plugins.get? "ds" = some 1 := by
  decide

/-! ## Lemmas on paths -/

/-- A split is never empty. -/
theorem stringsSplit_ne_nil (s : Path) (sep : Char) : stringsSplit s sep ≠ [] := by
  induction s with
  | nil => simp [stringsSplit]
  | cons c cs ih =>
    by_cases hc : c = sep
    · simp [stringsSplit, hc]
    · simp only [stringsSplit, hc, if_false]
      cases hs : stringsSplit cs sep with
      | nil => exact absurd hs ih
      | cons seg rest => simp

/-- No element of a split contains the separator. -/
theorem stringsSplit_no_sep (s : Path) (sep : Char) : ∀ e ∈ stringsSplit s sep, sep ∉ e := by
  induction s with
  | nil => simp [stringsSplit]
  | cons c cs ih =>
    by_cases hc : c = sep
    · intro e he
      simp only [stringsSplit, hc, if_true, List.mem_cons] at he
      rcases he with rfl | he
      · simp
      · exact ih e he
    · simp only [stringsSplit, hc, if_false]
      cases hs : stringsSplit cs sep with
      | nil => exact absurd hs (stringsSplit_ne_nil cs sep)
      | cons seg rest =>
        rw [hs] at ih
        intro e he
        simp only [List.mem_cons] at he
        rcases he with rfl | he
        · have := ih seg (by simp)
          simp only [List.mem_cons, not_or]
          exact ⟨fun e => hc e.symm, this⟩
        · exact ih e (by simp [he])

/-- Splitting at an explicit separator: the split of `x/y` is the split of `x`
followed by the split of `y`. -/
theorem stringsSplit_append (x y : Path) (sep : Char) :
    stringsSplit (x ++ sep :: y) sep = stringsSplit x sep ++ stringsSplit y sep := by
  induction x with
  | nil => simp [stringsSplit]
  | cons c cs ih =>
    by_cases hc : c = sep
    · simp [stringsSplit, hc, ih]
    · simp only [List.cons_append, stringsSplit, hc, if_false]
      have ih1 : stringsSplit (cs.append (sep :: y)) sep =
          stringsSplit cs sep ++ stringsSplit y sep := ih
      rw [ih1]
      cases hs : stringsSplit cs sep with
      | nil => exact absurd hs (stringsSplit_ne_nil cs sep)
      | cons seg rest => simp

/-- A string without separator splits into itself. -/
theorem stringsSplit_of_no_sep (e : Path) (sep : Char) (he : sep ∉ e) :
    stringsSplit e sep = [e] := by
  induction e with
  | nil => simp [stringsSplit]
  | cons c cs ih =>
    simp only [List.mem_cons, not_or] at he
    have hc : ¬ c = sep := fun e => he.1 e.symm
    simp [stringsSplit, hc, ih he.2]

/-- Joining two non-empty lists of elements. -/
theorem stringsJoin_append (xs ys : List Path) (sep : Char) (hx : xs ≠ []) (hy : ys ≠ []) :
    stringsJoin (xs ++ ys) sep = stringsJoin xs sep ++ sep :: stringsJoin ys sep := by
  induction xs with
  | nil => exact absurd rfl hx
  | cons x xs ih =>
    cases xs with
    | nil =>
      cases ys with
      | nil => exact absurd rfl hy
      | cons y ys => simp [stringsJoin]
    | cons x1 xs =>
      have := ih (by simp)
      simp only [List.cons_append] at this ⊢
      simp [stringsJoin, this]

/-- Splitting undoes joining, for elements without separator. -/
theorem stringsSplit_join (es : List Path) (sep : Char) (hne : es ≠ [])
    (hes : ∀ e ∈ es, sep ∉ e) : stringsSplit (stringsJoin es sep) sep = es := by
  induction es with
  | nil => exact absurd rfl hne
  | cons e es ih =>
    cases es with
    | nil => simpa [stringsJoin] using stringsSplit_of_no_sep e sep (hes e (by simp))
    | cons e1 es =>
      have h1 := ih (by simp) (fun x hx => hes x (by simp [hx]))
      simp only [stringsJoin, stringsSplit_append, h1,
        stringsSplit_of_no_sep e sep (hes e (by simp))]
      rfl

/-- On a real element the loop of `Clean` writes the element; an empty element
is dropped. -/
theorem cleanStep_real (rooted : Bool) (out : List Path) (e : Path) (he : realElem e) :
    cleanStep rooted out e = e :: out := by
  obtain ⟨h1, h2, h3, _⟩ := he
  simp [cleanStep, h1, h2, h3]

/-- The loop of `Clean` over elements that are empty or real keeps the real
ones, in order. -/
theorem foldl_cleanStep (rooted : Bool) (segs : List Path)
    (hsegs : ∀ e ∈ segs, e = [] ∨ realElem e) (out : List Path) :
    segs.foldl (cleanStep rooted) out =
      (segs.filter (fun e => decide (e ≠ []))).reverse ++ out := by
  induction segs generalizing out with
  | nil => simp
  | cons e segs ih =>
    have ih1 := fun o => ih (fun x hx => hsegs x (by simp [hx])) o
    rcases hsegs e (by simp) with rfl | he
    · simp [List.foldl_cons, cleanStep, ih1]
    · have hne : e ≠ [] := he.1
      simp [List.foldl_cons, cleanStep_real rooted out e he, ih1, List.filter_cons, hne]

/-- The value of `Clean` on an absolute path whose elements are empty or real. -/
theorem Clean_of_abs (p : Path) (habs : IsAbs p = true)
    (hsegs : ∀ e ∈ stringsSplit p Separator, e = [] ∨ realElem e) :
    Clean p = absPath ((stringsSplit p Separator).filter (fun e => decide (e ≠ []))) := by
  have hp : p ≠ [] := by
    intro h
    subst h
    simp [IsAbs, stringsHasPrefix, Separator] at habs
  simp [Clean, hp, habs, foldl_cleanStep true _ hsegs, absPath]

/-- The elements of an absolute path, split. -/
theorem stringsSplit_absPath (es : List Path) (hes : ∀ e ∈ es, realElem e) :
    stringsSplit (absPath es) Separator = [] :: (if es = [] then [[]] else es) := by
  have h0 : stringsSplit (absPath es) Separator = [] :: stringsSplit (stringsJoin es Separator)
      Separator := by
    simp [absPath, stringsSplit]
  rw [h0]
  by_cases hne : es = []
  · subst hne
    simp [stringsJoin, stringsSplit]
  · rw [if_neg hne, stringsSplit_join es Separator hne (fun e he => (hes e he).2.2.2)]

/-- An absolute path of real elements is clean. -/
theorem Clean_absPath (es : List Path) (hes : ∀ e ∈ es, realElem e) :
    Clean (absPath es) = absPath es := by
  have hsplit := stringsSplit_absPath es hes
  have hfilter : es.filter (fun e => !decide (e = [])) = es := by
    rw [List.filter_eq_self]
    intro e he
    simpa using (hes e he).1
  rw [Clean_of_abs (absPath es) (by simp [absPath, IsAbs, stringsHasPrefix])]
  · rw [hsplit]
    by_cases hne : es = []
    · subst hne; simp
    · simp [hne, hfilter]
  · rw [hsplit]
    intro e he
    by_cases hne : es = []
    · subst hne
      simp at he
      exact Or.inl he
    · simp only [hne, if_false, List.mem_cons] at he
      rcases he with rfl | he
      · exact Or.inl rfl
      · exact Or.inr (hes e he)

/-- One round of the ancestry loop: joining a real element to an absolute path
of real elements appends the element. -/
theorem Join_absPath (pre : List Path) (e : Path) (hpre : ∀ x ∈ pre, realElem x)
    (he : realElem e) : Join [absPath pre, e] = absPath (pre ++ [e]) := by
  have hne : absPath pre ≠ [] := by simp [absPath]
  have hj : stringsJoin [absPath pre, e] Separator = absPath pre ++ Separator :: e := by
    simp [stringsJoin]
  have hsplit : stringsSplit (absPath pre ++ Separator :: e) Separator =
      ([] :: (if pre = [] then [[]] else pre)) ++ [e] := by
    rw [stringsSplit_append, stringsSplit_absPath pre hpre,
      stringsSplit_of_no_sep e Separator he.2.2.2]
  have hfilter : pre.filter (fun e => !decide (e = [])) = pre := by
    rw [List.filter_eq_self]
    intro x hx
    simpa using (hpre x hx).1
  simp only [Join, hne, ne_eq, not_false_eq_true, if_true, hj]
  rw [Clean_of_abs _ (by simp [absPath, IsAbs, stringsHasPrefix])]
  · rw [hsplit]
    by_cases hp : pre = []
    · subst hp
      simp [he.1]
    · simp [hp, List.filter_append, hfilter, he.1]
  · rw [hsplit]
    intro x hx
    by_cases hp : pre = []
    · subst hp
      simp at hx
      rcases hx with rfl | rfl
      · exact Or.inl rfl
      · exact Or.inr he
    · simp only [hp, if_false, List.cons_append, List.mem_cons, List.mem_append,
        List.mem_singleton] at hx
      rcases hx with rfl | hx | rfl | hx
      · exact Or.inl rfl
      · exact Or.inr (hpre x hx)
      · exact Or.inr he
      · cases hx

/-- The first round of the ancestry loop on an absolute path: joining the empty
element to the root directory gives the root directory. -/
theorem Join_root_nil : Join [absPath [], []] = absPath [] := by
  decide

/-- One round of the loop of `Clean` on a rooted path keeps every written
element real. -/
theorem cleanStep_rooted_real (out : List Path) (e : Path) (hout : ∀ x ∈ out, realElem x)
    (he : Separator ∉ e) : ∀ x ∈ cleanStep true out e, realElem x := by
  unfold cleanStep
  by_cases h1 : e = [] ∨ e = ['.']
  · rw [if_pos h1]; exact hout
  · rw [if_neg h1]
    by_cases h2 : e = ['.', '.']
    · rw [if_pos h2]
      cases out with
      | nil => simp
      | cons last before =>
        by_cases h3 : last = ['.', '.']
        · simp only [h3, if_true]
          rw [← h3]; exact hout
        · simp only [h3, if_false]
          exact fun x hx => hout x (by simp [hx])
    · rw [if_neg h2]
      intro x hx
      simp only [List.mem_cons] at hx
      rcases hx with rfl | hx
      · exact ⟨fun h => h1 (Or.inl h), fun h => h1 (Or.inr h), h2, he⟩
      · exact hout x hx

/-- The loop of `Clean` on a rooted path writes real elements only. -/
theorem foldl_cleanStep_rooted_real (segs : List Path) (hsegs : ∀ e ∈ segs, Separator ∉ e)
    (out : List Path) (hout : ∀ x ∈ out, realElem x) :
    ∀ x ∈ segs.foldl (cleanStep true) out, realElem x := by
  induction segs generalizing out with
  | nil => simpa using hout
  | cons e segs ih =>
    rw [List.foldl_cons]
    exact ih (fun x hx => hsegs x (by simp [hx])) _
      (cleanStep_rooted_real out e hout (hsegs e (by simp)))

/-- A clean absolute path is `/e1/.../en` for real elements `e1 ... en`. -/
theorem clean_abs_elems (d : Path) (hclean : Clean d = d) (habs : IsAbs d = true) :
    ∃ es : List Path, (∀ e ∈ es, realElem e) ∧ d = absPath es := by
  have hp : d ≠ [] := by
    intro h
    subst h
    simp [IsAbs, stringsHasPrefix, Separator] at habs
  refine ⟨((stringsSplit d Separator).foldl (cleanStep true) []).reverse, ?_, ?_⟩
  · intro e he
    rw [List.mem_reverse] at he
    exact foldl_cleanStep_rooted_real _ (stringsSplit_no_sep d Separator) [] (by simp) e he
  · conv_lhs => rw [← hclean]
    simp [Clean, hp, habs, absPath]

/-- The ancestry loop from `/pre` over the real elements `rest`: when the `k`-th
candidate `/pre/r1/.../rk` is in the map and no earlier candidate is, the loop
ends with the pointer stored there. -/
theorem scanRootLoop_first (plugins : GoMap Path Ptr) (pa : Ptr) (rest : List Path) :
    ∀ (pre : List Path) (k : Nat), (∀ x ∈ pre, realElem x) → (∀ x ∈ rest, realElem x) →
      1 ≤ k → k ≤ rest.length →
      plugins.get? (absPath (pre ++ rest.take k)) = some pa →
      (∀ j, 1 ≤ j → j < k → plugins.get? (absPath (pre ++ rest.take j)) = none) →
      scanRootLoop plugins (absPath pre) rest = some pa := by
  induction rest with
  | nil =>
    intro pre k _ _ hk1 hk2
    simp at hk2
    omega
  | cons r rest ih =>
    intro pre k hpre hrest hk1 hk2 hget hnone
    have hr : realElem r := hrest r (by simp)
    have hj := Join_absPath pre r hpre hr
    simp only [scanRootLoop, hj]
    by_cases hk : k = 1
    · subst hk
      simp only [List.take_succ_cons, List.take_zero] at hget
      rw [hget]
    · have h1 := hnone 1 (le_refl 1) (by omega)
      simp only [List.take_succ_cons, List.take_zero] at h1
      rw [h1]
      obtain ⟨k1, rfl⟩ : ∃ k1, k = k1 + 1 := ⟨k - 1, by omega⟩
      apply ih (pre ++ [r]) k1
      · intro x hx
        simp only [List.mem_append, List.mem_singleton] at hx
        rcases hx with hx | rfl
        · exact hpre x hx
        · exact hr
      · exact fun x hx => hrest x (by simp [hx])
      · omega
      · simpa using hk2
      · simpa using hget
      · intro j hj1 hj2
        have := hnone (j + 1) (by omega) (by omega)
        simpa using this

/-- A prefix that ends in a separator, of an element without separator followed
by a separator: it is the element, or it goes on behind the separator. -/
theorem prefix_sep_cases (sep : Char) (e t : Path) (he : sep ∉ e) :
    ∀ x : Path, x ++ [sep] <+: e ++ sep :: t →
      x = e ∨ ∃ x1, x = e ++ sep :: x1 ∧ x1 ++ [sep] <+: t := by
  induction e with
  | nil =>
    intro x hx
    cases x with
    | nil => exact Or.inl rfl
    | cons c x1 =>
      simp only [List.cons_append, List.nil_append, List.cons_prefix_cons] at hx
      exact Or.inr ⟨x1, by simp [hx.1], hx.2⟩
  | cons c e ih =>
    intro x hx
    simp only [List.mem_cons, not_or] at he
    cases x with
    | nil =>
      simp only [List.nil_append, List.cons_append, List.cons_prefix_cons] at hx
      exact absurd hx.1 he.1
    | cons c1 x1 =>
      simp only [List.cons_append, List.cons_prefix_cons] at hx
      obtain ⟨hc, hx1⟩ := hx
      subst hc
      rcases ih he.2 x1 hx1 with h | ⟨x2, h, hp⟩
      · exact Or.inl (by rw [h])
      · exact Or.inr ⟨x2, by rw [h]; rfl, hp⟩

/-- A prefix of a joined path that ends in a separator is the join of the first
`k` elements, for some `k` from 1 to the number of elements less one. -/
theorem join_prefix_take (sep : Char) (es : List Path) (hes : ∀ e ∈ es, sep ∉ e) :
    ∀ x : Path, x ++ [sep] <+: stringsJoin es sep →
      ∃ k, 1 ≤ k ∧ k < es.length ∧ x = stringsJoin (es.take k) sep := by
  induction es with
  | nil =>
    intro x hx
    simp [stringsJoin] at hx
  | cons e es ih =>
    intro x hx
    cases es with
    | nil =>
      simp only [stringsJoin] at hx
      have hmem : sep ∈ e := hx.subset (by simp)
      exact absurd hmem (hes e (by simp))
    | cons e1 es =>
      simp only [stringsJoin] at hx
      rcases prefix_sep_cases sep e _ (hes e (by simp)) x hx with h | ⟨x1, h, hp⟩
      · exact ⟨1, le_refl 1, by simp, by simp [h, stringsJoin]⟩
      · obtain ⟨k, hk1, hk2, hk3⟩ := ih (fun y hy => hes y (by simp [hy])) x1 hp
        refine ⟨k + 1, by omega, by simp at hk2 ⊢; omega, ?_⟩
        obtain ⟨k0, rfl⟩ : ∃ k0, k = k0 + 1 := ⟨k - 1, by omega⟩
        rw [h, hk3]
        simp [stringsJoin]

/-- The join of a list that starts with real elements is not empty. -/
theorem stringsJoin_ne_nil (sep : Char) (ys : List Path) (hne : ys ≠ [])
    (hys : ∀ y ∈ ys, y ≠ []) : stringsJoin ys sep ≠ [] := by
  cases ys with
  | nil => exact absurd rfl hne
  | cons y ys =>
    have hy : y ≠ [] := hys y (by simp)
    cases ys with
    | nil => simpa [stringsJoin] using hy
    | cons y1 ys => simp [stringsJoin, hy]

/-- The path `/xs` is a strict ancestor of `/xs/ys`, and shorter. -/
theorem absPath_append (xs ys : List Path) (hne : ys ≠ []) (hys : ∀ y ∈ ys, y ≠ []) :
    StrictAncestor (absPath xs) (absPath (xs ++ ys)) ∧
      (absPath xs).length < (absPath (xs ++ ys)).length := by
  have hlen : (absPath xs).length < (absPath (xs ++ ys)).length := by
    by_cases hx : xs = []
    · subst hx
      have := List.length_pos.2 (stringsJoin_ne_nil Separator ys hne hys)
      simp [absPath, stringsJoin]
      omega
    · simp [absPath, stringsJoin_append xs ys Separator hx hne]
  refine ⟨⟨by simp [absPath, IsAbs, stringsHasPrefix], ?_, ?_⟩, hlen⟩
  · intro h
    rw [h] at hlen
    exact absurd hlen (lt_irrefl _)
  · by_cases hx : xs = []
    · subst hx
      exact Or.inl (by simp [absPath, stringsJoin])
    · right
      simp [stringsHasPrefix, absPath, stringsJoin_append xs ys Separator hx hne]

/-- The first `j` elements of a clean absolute path make a strict ancestor, and
a shorter path. -/
theorem absPath_take (es : List Path) (hes : ∀ e ∈ es, realElem e) (j : Nat)
    (hj : j < es.length) :
    StrictAncestor (absPath (es.take j)) (absPath es) ∧
      (absPath (es.take j)).length < (absPath es).length := by
  have h := absPath_append (es.take j) (es.drop j)
    (by
      intro h0
      have := congrArg List.length h0
      simp at this
      omega)
    (fun y hy => (hes y (List.mem_of_mem_drop hy)).1)
  rwa [List.take_append_drop] at h

/-- A strict ancestor of a clean absolute path is made of its first `k`
elements, for some `k` less than their number. -/
theorem ancestor_is_take (es : List Path) (a : Path) (hes : ∀ e ∈ es, realElem e)
    (hanc : StrictAncestor a (absPath es)) :
    ∃ k, k < es.length ∧ a = absPath (es.take k) := by
  obtain ⟨habs, hne, hpre⟩ := hanc
  rcases hpre with h | h
  · refine ⟨0, ?_, by simp [h, absPath, stringsJoin]⟩
    rcases Nat.eq_zero_or_pos es.length with h0 | h0
    · have : es = [] := List.length_eq_zero.1 h0
      subst this
      exact absurd (by simp [h, absPath, stringsJoin]) hne
    · exact h0
  · cases a with
    | nil => simp [IsAbs, stringsHasPrefix] at habs
    | cons c a1 =>
      simp only [IsAbs, stringsHasPrefix, List.isPrefixOf_iff_prefix, List.cons_prefix_cons,
        List.nil_prefix, and_true] at habs
      subst habs
      simp only [stringsHasPrefix, List.isPrefixOf_iff_prefix, absPath, List.cons_append,
        List.cons_prefix_cons, true_and] at h
      obtain ⟨k, _, hk2, hk3⟩ :=
        join_prefix_take Separator es (fun e he => (hes e he).2.2.2) a1 h
      exact ⟨k, hk2, by simp [absPath, hk3]⟩

/-! ## The ancestry step -/

/-- The ancestry step on the clean absolute path `/e1/.../en`: when the ancestor
made of the first `k` elements is in the map and no shorter one is, the step
finds the pointer stored there. -/
theorem scanFindRoot_absPath (goos : String) (plugins : GoMap Path Ptr) (es : List Path)
    (pa : Ptr) (k : Nat) (hos : goos ≠ "windows") (hes : ∀ e ∈ es, realElem e)
    (hk : k < es.length)
    (hget : plugins.get? (absPath (es.take k)) = some pa)
    (hnone : ∀ j, j < k → plugins.get? (absPath (es.take j)) = none) :
    scanFindRoot goos plugins (absPath es) = some pa := by
  have hne : es ≠ [] := by
    intro h
    subst h
    simp at hk
  have hsplit : stringsSplit (absPath es) Separator = [] :: es := by
    rw [stringsSplit_absPath es hes, if_neg hne]
  have hanc : scanAncestors (absPath es) = [] :: es.take (es.length - 1) := by
    simp only [scanAncestors, hsplit, List.length_cons, Nat.add_sub_cancel]
    obtain ⟨n, hn⟩ : ∃ n, es.length = n + 1 := ⟨es.length - 1, by omega⟩
    rw [hn, List.take_succ_cons]
    rfl
  have habs : IsAbs (absPath es) = true := by simp [absPath, IsAbs, stringsHasPrefix]
  have hstart : (if goos ≠ "windows" ∧ IsAbs (absPath es) = true then ['/'] else []) =
      absPath [] := by
    rw [if_pos ⟨hos, habs⟩]
    rfl
  simp only [scanFindRoot, hanc, hstart, scanRootLoop, Join_root_nil]
  by_cases hk0 : k = 0
  · subst hk0
    simp only [List.take_zero] at hget
    rw [hget]
  · have h0 := hnone 0 (by omega)
    simp only [List.take_zero] at h0
    rw [h0]
    have htake : ∀ j, j ≤ k → (es.take (es.length - 1)).take j = es.take j := by
      intro j hj
      rw [List.take_take, Nat.min_eq_left (by omega)]
    apply scanRootLoop_first plugins pa (es.take (es.length - 1)) [] k (by simp)
      (fun x hx => hes x (List.mem_of_mem_take hx)) (by omega)
      (by rw [List.length_take]; omega)
    · rw [List.nil_append, htake k (le_refl k)]
      exact hget
    · intro j _ hj2
      rw [List.nil_append, htake j (by omega)]
      exact hnone j hj2

/-- C2 (outermost-ancestor binding): on a host that is not Windows, for a clean
absolute directory `d` that is a key of the scan-local map, if the key `a` is a
strict ancestor of `d` and no strict ancestor of `d` among the keys is shorter,
the ancestry step finds the pointer stored at `a` and assigns it as root of the
descriptor at `d`. -/
theorem scan_root_is_outermost_ancestor (goos : String) (plugins : GoMap Path Ptr) (h : Heap)
    (d : Path) (pd : Ptr) (a : Path) (pa : Ptr)
    (hos : goos ≠ "windows") (hclean : Clean d = d) (habs : IsAbs d = true)
    (_hd : plugins.get? d = some pd)
    (ha : plugins.get? a = some pa)
    (hanc : StrictAncestor a d)
    (hshort : ∀ a1 ∈ plugins.keys, StrictAncestor a1 d → a.length ≤ a1.length) :
    scanFindRoot goos plugins d = some pa ∧
      ((scanAssignRoot goos plugins h d pd) pd).Root = some pa := by
  obtain ⟨es, hes, rfl⟩ := clean_abs_elems d hclean habs
  obtain ⟨k, hk, rfl⟩ := ancestor_is_take es a hes hanc
  have hnone : ∀ j, j < k → plugins.get? (absPath (es.take j)) = none := by
    intro j hj
    cases hg : plugins.get? (absPath (es.take j)) with
    | none => rfl
    | some v =>
      exfalso
      have hkey := GoMap.mem_keys_of_get? plugins _ v hg
      have hle := hshort _ hkey (absPath_take es hes j (by omega)).1
      have hlt := (absPath_take (es.take k) (fun e he => hes e (List.mem_of_mem_take he)) j
        (by rw [List.length_take]; omega)).2
      rw [List.take_take, Nat.min_eq_left (by omega)] at hlt
      omega
  have hfind := scanFindRoot_absPath goos plugins es pa k hos hes hk ha hnone
  refine ⟨hfind, ?_⟩
  simp [scanAssignRoot, hfind, Heap.write]

/-- The witness of C2: with packages at `/p/A`, `/p/A/B` and `/p/A/B/C` the
root of `C` is the descriptor of `A` (address 0), not that of `B` (address 1). -/
theorem scan_root_is_outermost_ancestor_witness :
    Clean "/p/A/B/C".toList = "/p/A/B/C".toList ∧
      StrictAncestor "/p/A".toList "/p/A/B/C".toList ∧
      StrictAncestor "/p/A/B".toList "/p/A/B/C".toList ∧
      nestedPlugins.get? "/p/A".toList = some 0 ∧
      nestedPlugins.get? "/p/A/B".toList = some 1 ∧
      scanFindRoot "linux" nestedPlugins "/p/A/B/C".toList = some 0 ∧
      ((scanAssignRoot "linux" nestedPlugins nestedHeap "/p/A/B/C".toList 2) 2).Root = some 0 :=
  have w := scan_root_is_outermost_ancestor "linux" nestedPlugins nestedHeap "/p/A/B/C".toList 2
    "/p/A".toList 0 (by decide) (by decide) (by decide) (by decide) (by decide) (by decide)
    (by decide)
  ⟨by decide, by decide, by decide, by decide, by decide, w.1, w.2⟩

/-- C10 fails on the code: for a package discovered at the filesystem root `/`
the ancestry step finds the descriptor itself, so it becomes its own root and
the root's directory `/` is not a strict ancestor of `/`. -/
theorem scan_root_of_root_directory_is_itself :
    scanAncestors "/".toList = [[]] ∧
      Join ["/".toList, []] = "/".toList ∧
      scanFindRoot "linux" [("/".toList, 0)] "/".toList = some 0 ∧
      ((scanAssignRoot "linux" [("/".toList, 0)] rootDirHeap "/".toList 0) 0).Root = some 0 ∧
      ((scanAssignRoot "linux" [("/".toList, 0)] rootDirHeap "/".toList 0) 0).PluginDir =
        "/".toList := by
  decide

/-! ## The fatal branch of the trust validator -/

/-- The function `validateSignature` panics exactly when the descriptor is
backend-capable, the scan enforces signing and the signature state after the
inheritance step is Internal. -/
theorem validateSignature_panics_iff (s : PluginScanner) (h : Heap) (p : Ptr) :
    (∃ v, (s.validateSignature h p).1 = Outcome.panicked v) ↔
      ((h p).Backend = true ∧ s.requireSigned = true ∧
        ((s.validateSignature h p).2.2 p).Signature = PluginSignatureInternal) := by
  rw [validateSignature_eq_enforceStep, heap_of_enforceStep, ← (inheritStep_self h p).1]
  generalize inheritStep h p = h1
  cases hb : (h1 p).Backend <;> cases hr : s.requireSigned <;>
    cases hs : (h1 p).Signature <;> simp [enforceStep, hb, hr, hs]
  split
  · simp
  · simp

/-- C11, as stated, fails: the switch of `validateSignature` has no case for the
state Internal.  Under a scan that enforces signing the backend descriptor `I`,
whose state is Internal, reaches the default branch and panics instead of
returning a decision; so does the Unsigned backend descriptor `B`, which takes
the state Internal from its root. -/
theorem validateSignature_internal_panics :
    ((internalHeap 0).Signature = PluginSignatureInternal ∧
      (({ requireSigned := true } : PluginScanner).validateSignature internalHeap 0).1 =
        Outcome.panicked (PanicValue.unrecognizedSignature "I" PluginSignatureInternal)) ∧
    ((internalRootHeap 1).Signature = PluginSignatureUnsigned ∧
      (internalRootHeap 0).Signature = PluginSignatureInternal ∧
      (({ requireSigned := true } : PluginScanner).validateSignature internalRootHeap 1).1 =
        Outcome.panicked (PanicValue.unrecognizedSignature "B" PluginSignatureInternal)) := by
  decide

/-- C11, amended (the decision and the fatal branch): `validateSignature`
reaches the fatal default branch exactly when the descriptor is backend-capable,
the scan enforces signing and the signature state after the inheritance step is
Internal; it then panics with the descriptor's id and the state Internal and
appends no error.  In every other case, for each of the five signature states,
it returns a decision: nil, or an error whose code is `signatureMissing`,
`signatureInvalid` or `signatureModified`. -/
theorem validateSignature_decides_or_panics (s : PluginScanner) (h : Heap) (p : Ptr) :
    ((∃ v, (s.validateSignature h p).1 = Outcome.panicked v) ↔
      ((h p).Backend = true ∧ s.requireSigned = true ∧
        ((s.validateSignature h p).2.2 p).Signature = PluginSignatureInternal)) ∧
    (((h p).Backend = true ∧ s.requireSigned = true ∧
        ((s.validateSignature h p).2.2 p).Signature = PluginSignatureInternal) →
      (s.validateSignature h p).1 =
          Outcome.panicked (PanicValue.unrecognizedSignature (h p).Id PluginSignatureInternal) ∧
        (s.validateSignature h p).2.1.errors = s.errors) ∧
    (¬ ((h p).Backend = true ∧ s.requireSigned = true ∧
        ((s.validateSignature h p).2.2 p).Signature = PluginSignatureInternal) →
      (s.validateSignature h p).1 = Outcome.returned none ∨
        (s.validateSignature h p).1 =
          Outcome.returned (some { ErrorCode := signatureMissing }) ∨
        (s.validateSignature h p).1 =
          Outcome.returned (some { ErrorCode := signatureInvalid }) ∨
        (s.validateSignature h p).1 =
          Outcome.returned (some { ErrorCode := signatureModified })) := by
  refine ⟨validateSignature_panics_iff s h p, ?_, ?_⟩
  · rw [validateSignature_eq_enforceStep, heap_of_enforceStep, ← (inheritStep_self h p).1,
      ← (inheritStep_self h p).2]
    generalize inheritStep h p = h1
    rintro ⟨hb, hr, hs⟩
    simp [enforceStep, hb, hr, hs]
  · rw [validateSignature_eq_enforceStep, heap_of_enforceStep, ← (inheritStep_self h p).1]
    generalize inheritStep h p = h1
    cases hb : (h1 p).Backend <;> cases hr : s.requireSigned <;>
      cases hs : (h1 p).Signature <;> simp [enforceStep, hb, hr, hs]
    split
    · simp
    · simp

/-- The witness of C11 amended: the Internal backend descriptor `I` under a scan
that enforces signing panics, and the Unsigned backend descriptor `U` under the
same scan is not in the fatal case and gets a decision, here the rejection
`signatureMissing`. -/
theorem validateSignature_decides_or_panics_witness :
    ((internalHeap 0).Backend = true ∧
      (({ requireSigned := true } : PluginScanner).validateSignature internalHeap 0).1 =
        Outcome.panicked (PanicValue.unrecognizedSignature "I" PluginSignatureInternal) ∧
      (({ requireSigned := true } : PluginScanner).validateSignature internalHeap 0).2.1.errors =
        []) ∧
    ((({ requireSigned := true } : PluginScanner).validateSignature unsignedHeap 0).1 =
        Outcome.returned none ∨
      (({ requireSigned := true } : PluginScanner).validateSignature unsignedHeap 0).1 =
        Outcome.returned (some { ErrorCode := signatureMissing }) ∨
      (({ requireSigned := true } : PluginScanner).validateSignature unsignedHeap 0).1 =
        Outcome.returned (some { ErrorCode := signatureInvalid }) ∨
      (({ requireSigned := true } : PluginScanner).validateSignature unsignedHeap 0).1 =
        Outcome.returned (some { ErrorCode := signatureModified })) :=
  have w := (validateSignature_decides_or_panics { requireSigned := true } internalHeap 0).2.1
    ⟨by decide, by decide, by decide⟩
  ⟨⟨by decide, w.1, w.2⟩,
    (validateSignature_decides_or_panics { requireSigned := true } unsignedHeap 0).2.2
      (by decide)⟩

/-! ## The first pass of `scan` -/

/-- C12 fails on the code: the walk of `/p` fails with a permission-denied error
that the walker reports for the sub-directory `/p/sub`, not for the root path
`/p`; `errors.Is` sees the cause through the wrapping of the walker, and `scan`
returns nil instead of that error, with the registries as they were. -/
theorem scan_tolerates_denied_subdirectory :
    (deniedHost.Walk "/p".toList
        { pluginPath := "/p".toList, requireSigned := true } unsignedHeap).1 =
        some (GoError.walkReported "/p/sub".toList GoError.ErrPermission) ∧
      "/p/sub".toList ≠ "/p".toList ∧
      errorsIs (GoError.walkReported "/p/sub".toList GoError.ErrPermission)
        GoError.ErrPermission = true ∧
      (({} : PluginManager).scan deniedHost dupGlobals unsignedHeap "/p".toList true).1 =
        Outcome.returned none ∧
      (({} : PluginManager).scan deniedHost dupGlobals unsignedHeap "/p".toList true).2.2.1 =
        dupGlobals := by
  decide

/-- The error branch of the first pass: when the walk of a scan fails with an
error that is, or wraps, `os.ErrNotExist` or `os.ErrPermission`, `scan` returns
nil and leaves the manager, with `pluginScanningErrors`, and the registries
unchanged; when the walk fails with any other error, `scan` returns that error,
and again changes nothing. -/
theorem scan_walk_error (host : Host) (pm : PluginManager) (g : Globals) (h : Heap)
    (pluginDir : Path) (requireSigned : Bool) (err : GoError)
    (hwalk : (host.Walk pluginDir
        { pluginPath := pluginDir, cfg := pm.Cfg, requireSigned := requireSigned, plugins := [],
          allowUnsignedPluginsCondition := pm.AllowUnsignedPluginsCondition } h).1 = some err) :
    ((errorsIs err GoError.ErrNotExist = true ∨ errorsIs err GoError.ErrPermission = true) →
        (pm.scan host g h pluginDir requireSigned).1 = Outcome.returned none) ∧
      ((errorsIs err GoError.ErrNotExist = false ∧ errorsIs err GoError.ErrPermission = false) →
        (pm.scan host g h pluginDir requireSigned).1 = Outcome.returned (some err)) ∧
      (pm.scan host g h pluginDir requireSigned).2.1.pluginScanningErrors =
        pm.pluginScanningErrors ∧
      (pm.scan host g h pluginDir requireSigned).2.1.scanningErrors = pm.scanningErrors ∧
      (pm.scan host g h pluginDir requireSigned).2.2.1 = g := by
  unfold PluginManager.scan
  rcases hw : host.Walk pluginDir
      { pluginPath := pluginDir, cfg := pm.Cfg, requireSigned := requireSigned, plugins := [],
        allowUnsignedPluginsCondition := pm.AllowUnsignedPluginsCondition } h with ⟨e, s1, h1⟩
  rw [hw] at hwalk
  simp only at hwalk
  subst hwalk
  simp only [hw]
  cases h1e : errorsIs err GoError.ErrNotExist <;>
    cases h2e : errorsIs err GoError.ErrPermission <;> simp

/-- An instance of `scan_walk_error`: a permission-denied error below the root
is swallowed, an input/output error is returned. -/
theorem scan_walk_error_witness :
    (({} : PluginManager).scan deniedHost dupGlobals unsignedHeap "/p".toList true).1 =
        Outcome.returned none ∧
      (({} : PluginManager).scan deniedHost dupGlobals unsignedHeap "/p".toList true).2.2.1 =
        dupGlobals ∧
      (({} : PluginManager).scan ioErrorHost dupGlobals unsignedHeap "/p".toList true).1 =
        Outcome.returned
          (some (GoError.walkReported "/p".toList (GoError.other "input/output error"))) :=
  have w1 := scan_walk_error deniedHost {} dupGlobals unsignedHeap "/p".toList true
    (GoError.walkReported "/p/sub".toList GoError.ErrPermission) (by decide)
  have w2 := scan_walk_error ioErrorHost {} dupGlobals unsignedHeap "/p".toList true
    (GoError.walkReported "/p".toList (GoError.other "input/output error")) (by decide)
  ⟨w1.1 (Or.inr (by decide)), w1.2.2.2.2, w2.2.1 ⟨by decide, by decide⟩⟩

/-- C13 (the walk goes on after a manifest that does not load): for a file named
`plugin.json` that the walker visits without walk error, if `loadPlugin` fails
the walker appends exactly that error to the scanner's error list, leaves the
scan-local map and the store unchanged and returns nil; `loadPlugin` fails in
particular when the decoded manifest has an empty id or an empty type; and if
`loadPlugin` succeeds the walker returns nil, the error list is unchanged and
the new descriptor, with the id and type of the manifest, is stored under the
directory that contains the manifest. -/
theorem walker_plugin_json (disk : Disk) (s : PluginScanner) (h : Heap) (currentPath : Path)
    (f : FileInfo) (hname : f.Name = "plugin.json") (hfile : f.IsDir = false) :
    (∀ err, (s.loadPlugin disk h currentPath).1 = some err →
        (s.walker disk h currentPath f none).1 = none ∧
        (s.walker disk h currentPath f none).2.1.errors = s.errors ++ [err] ∧
        (s.walker disk h currentPath f none).2.1.plugins = s.plugins ∧
        (s.walker disk h currentPath f none).2.2 = h) ∧
      (∀ pluginCommon, disk.osOpen currentPath = none →
        disk.Decode currentPath = Except.ok pluginCommon →
        (pluginCommon.Id = "" ∨ pluginCommon.Type_ = "") →
        (s.loadPlugin disk h currentPath).1 = some GoError.missingTypeOrId) ∧
      ((s.loadPlugin disk h currentPath).1 = none →
        (s.walker disk h currentPath f none).1 = none ∧
        (s.walker disk h currentPath f none).2.1.errors = s.errors ∧
        ∃ (p : Ptr) (pluginCommon : PluginBase),
          disk.Decode currentPath = Except.ok pluginCommon ∧
          (s.walker disk h currentPath f none).2.1.plugins =
            s.plugins.set (Dir currentPath) p ∧
          (s.walker disk h currentPath f none).2.1.plugins.get? (Dir currentPath) = some p ∧
          ((s.walker disk h currentPath f none).2.2 p).PluginDir = Dir currentPath ∧
          ((s.walker disk h currentPath f none).2.2 p).Id = pluginCommon.Id ∧
          ((s.walker disk h currentPath f none).2.2 p).Type_ = pluginCommon.Type_) := by
  have hn1 : ¬ (("plugin.json" : String) = "node_modules" ∨
      ("plugin.json" : String) = "Chromium.app") := by decide
  have hwalker : s.walker disk h currentPath f none =
      match s.loadPlugin disk h currentPath with
      | (some err, s1, h1) => (none, { s1 with errors := s1.errors ++ [err] }, h1)
      | (none, s1, h1) => (none, s1, h1) := by
    simp only [PluginScanner.walker, hfile, hname, ne_eq, not_true_eq_false,
      Bool.false_eq_true, if_false, if_neg hn1]
  rw [hwalker]
  unfold PluginScanner.loadPlugin
  cases ho : disk.osOpen currentPath with
  | some e => simp
  | none =>
    cases hd : disk.Decode currentPath with
    | error e => simp
    | ok pc =>
      by_cases hid : pc.Id = "" ∨ pc.Type_ = ""
      · simp [hid]
      · cases hc : disk.collectPluginFilesWithin (Dir currentPath) with
        | error e => simp [hid, hc]
        | ok files =>
          cases hg : disk.getPluginSignatureState
              { pc with PluginDir := Dir currentPath, Files := files } with
          | error e => simp [hid, hc, hg]
          | ok st =>
            simp only [hid, hc, hg, if_false]
            refine ⟨by simp, ?_, ?_⟩
            · intro pc1 _ h1 h2
              simp only [Except.ok.injEq] at h1
              subst h1
              exact absurd h2 hid
            · intro _
              refine ⟨trivial, trivial, disk.newAddress s h, pc, ?_, ?_, ?_, ?_, ?_, ?_⟩ <;> try trivial
              · exact GoMap.get?_set_self _ _ _
              · simp [Heap.write]
              · simp [Heap.write]
              · simp [Heap.write]

/-- The witness of C13: the walker visits a manifest with an empty id and a
well-formed manifest; one descriptor is stored, under `/p/good`, and one error
is recorded. -/
theorem walker_plugin_json_witness :
    (({} : PluginScanner).loadPlugin twoManifests unsignedHeap "/p/bad/plugin.json".toList).1 =
        some GoError.missingTypeOrId ∧
      (({} : PluginScanner).walker twoManifests unsignedHeap "/p/bad/plugin.json".toList
        { Name := "plugin.json", IsDir := false } none).1 = none ∧
      (({} : PluginScanner).walker twoManifests unsignedHeap "/p/bad/plugin.json".toList
        { Name := "plugin.json", IsDir := false } none).2.1.errors = [GoError.missingTypeOrId] ∧
      (({} : PluginScanner).walker twoManifests unsignedHeap "/p/bad/plugin.json".toList
        { Name := "plugin.json", IsDir := false } none).2.1.plugins = [] ∧
      (({ errors := [GoError.missingTypeOrId] } : PluginScanner).walker twoManifests unsignedHeap
        "/p/good/plugin.json".toList { Name := "plugin.json", IsDir := false } none).1 = none ∧
      (({ errors := [GoError.missingTypeOrId] } : PluginScanner).walker twoManifests unsignedHeap
        "/p/good/plugin.json".toList { Name := "plugin.json", IsDir := false } none).2.1.errors =
        [GoError.missingTypeOrId] ∧
      (({ errors := [GoError.missingTypeOrId] } : PluginScanner).walker twoManifests unsignedHeap
        "/p/good/plugin.json".toList { Name := "plugin.json", IsDir := false } none).2.1.plugins =
        [("/p/good".toList, 0)] :=
  have wbad := (walker_plugin_json twoManifests {} unsignedHeap "/p/bad/plugin.json".toList
    { Name := "plugin.json", IsDir := false } rfl rfl).1 GoError.missingTypeOrId (by decide)
  have wgood := (walker_plugin_json twoManifests { errors := [GoError.missingTypeOrId] }
    unsignedHeap "/p/good/plugin.json".toList { Name := "plugin.json", IsDir := false }
    rfl rfl).2.2 (by decide)
  ⟨by decide, wbad.1, wbad.2.1, wbad.2.2.1, wgood.1, wgood.2.1, by decide⟩

/-! ## Plugin settings -/

/-- C14 fails on the code: the loop of `GetPluginSettings` looks the app up in
the map it is filling.  The organisation 1 has no stored setting; the app `A` is
auto-enabled and the panel `P` is a component of `A`.  When `range` visits `A`
first, `A` gets a default entry that is enabled and `P` takes `Enabled = true`
from it, although `A` has no stored setting; when `range` visits `P` first, `P`
is disabled. -/
theorem GetPluginSettings_component_follows_default_entry :
    (appHeap 11).IncludedInAppId = "A" ∧
      ((({} : PluginManager).GetPluginSettings appFirstGlobals appHeap (fun _ => true)
          (fun _ => Except.ok []) 1).toOption.bind (fun pluginMap => pluginMap.get? "P")) =
        some { PluginId := "P", OrgId := 1, Enabled := true } ∧
      ((({} : PluginManager).GetPluginSettings panelFirstGlobals appHeap (fun _ => true)
          (fun _ => Except.ok []) 1).toOption.bind (fun pluginMap => pluginMap.get? "P")) =
        some { PluginId := "P", OrgId := 1, Enabled := false } := by
  decide

/-! ## Lemmas on the candidates of the ancestry loop -/

/-- The ancestry loop returns the first candidate that the map holds. -/
theorem scanRootLoop_eq_findSome (plugins : GoMap Path Ptr) (build : List Path → Path)
    (ok : List Path → Prop) (hinit : ∀ xs ys, ok (xs ++ ys) → ok xs)
    (hjoin : ∀ pre e, ok (pre ++ [e]) → Join [build pre, e] = build (pre ++ [e]))
    (rest : List Path) :
    ∀ pre, ok (pre ++ rest) →
      scanRootLoop plugins (build pre) rest =
        (loopCands build pre rest).findSome? (fun c => plugins.get? c) := by
  induction rest with
  | nil => intro pre _; rfl
  | cons r rest ih =>
    intro pre hok
    have hok1 : ok ((pre ++ [r]) ++ rest) := by simpa using hok
    have hj := hjoin pre r (hinit _ _ hok1)
    simp only [scanRootLoop, loopCands, List.findSome?_cons, hj]
    cases plugins.get? (build (pre ++ [r])) with
    | some v => rfl
    | none => exact ih (pre ++ [r]) hok1

/-- When the loop finds a root, it finds it at the candidate of some position,
and the candidates before it are not in the map. -/
theorem loopCands_found (plugins : GoMap Path Ptr) (build : List Path → Path) (r0 : Ptr)
    (rest : List Path) :
    ∀ pre, (loopCands build pre rest).findSome? (fun c => plugins.get? c) = some r0 →
      ∃ j, j < rest.length ∧ plugins.get? (build (pre ++ rest.take (j + 1))) = some r0 ∧
        (loopCands build pre (rest.take j)).findSome? (fun c => plugins.get? c) = none := by
  induction rest with
  | nil => intro pre h; simp [loopCands] at h
  | cons r rest ih =>
    intro pre h
    simp only [loopCands, List.findSome?_cons] at h
    cases hg : plugins.get? (build (pre ++ [r])) with
    | some v =>
      rw [hg] at h
      simp only [Option.some.injEq] at h
      subst h
      exact ⟨0, by simp, by simpa using hg, by simp [loopCands]⟩
    | none =>
      rw [hg] at h
      obtain ⟨j, hj, hget, hnone⟩ := ih (pre ++ [r]) h
      refine ⟨j + 1, by simpa using hj, by simpa using hget, ?_⟩
      simp only [List.take_succ_cons, loopCands, List.findSome?_cons, hg]
      exact hnone

/-- The ancestry step on the clean absolute path `/e1/.../en` looks up `/`, then
`/e1`, up to `/e1/.../e(n-1)`, and returns the first pointer it finds. -/
theorem scanFindRoot_absPath_eq (goos : String) (plugins : GoMap Path Ptr) (es : List Path)
    (hos : goos ≠ "windows") (hes : ∀ e ∈ es, realElem e) :
    scanFindRoot goos plugins (absPath es) =
      (absPath [] :: loopCands absPath [] (es.take (es.length - 1))).findSome?
        (fun c => plugins.get? c) := by
  have habs : IsAbs (absPath es) = true := by simp [absPath, IsAbs, stringsHasPrefix]
  have hstart : (if goos ≠ "windows" ∧ IsAbs (absPath es) = true then ['/'] else []) =
      absPath [] := by
    rw [if_pos ⟨hos, habs⟩]
    rfl
  have hanc : scanAncestors (absPath es) = [] :: es.take (es.length - 1) := by
    by_cases hne : es = []
    · subst hne
      decide
    · have hsplit : stringsSplit (absPath es) Separator = [] :: es := by
        rw [stringsSplit_absPath es hes, if_neg hne]
      simp only [scanAncestors, hsplit, List.length_cons, Nat.add_sub_cancel]
      obtain ⟨n, hn⟩ : ∃ n, es.length = n + 1 :=
        ⟨es.length - 1, by have := List.length_pos.2 hne; omega⟩
      rw [hn, List.take_succ_cons]
      rfl
  simp only [scanFindRoot, hanc, hstart, scanRootLoop, Join_root_nil, List.findSome?_cons]
  cases plugins.get? (absPath []) with
  | some v => rfl
  | none =>
    exact scanRootLoop_eq_findSome plugins absPath (fun xs => ∀ e ∈ xs, realElem e)
      (fun xs ys h e he => h e (by simp [he]))
      (fun pre e h => Join_absPath pre e (fun x hx => h x (by simp [hx])) (h e (by simp)))
      (es.take (es.length - 1)) []
      (fun e he => hes e (List.mem_of_mem_take (by simpa using he)))

/-- The root that the ancestry step finds for a clean absolute path is stored
at a path for which the step finds no root, or the descriptor itself. -/
theorem root_of_absPath_is_top (goos : String) (plugins : GoMap Path Ptr) (es : List Path)
    (r0 : Ptr) (hos : goos ≠ "windows") (hes : ∀ e ∈ es, realElem e)
    (hfind : scanFindRoot goos plugins (absPath es) = some r0) :
    ∃ c, plugins.get? c = some r0 ∧ TopLevel goos plugins c r0 := by
  rw [scanFindRoot_absPath_eq goos plugins es hos hes, List.findSome?_cons] at hfind
  cases hg : plugins.get? (absPath []) with
  | some v =>
    rw [hg] at hfind
    simp only [Option.some.injEq] at hfind
    subst hfind
    refine ⟨absPath [], hg, Or.inr ?_⟩
    rw [scanFindRoot_absPath_eq goos plugins [] hos (by simp)]
    simp [loopCands, hg]
  | none =>
    rw [hg] at hfind
    obtain ⟨j, hj, hget, hnone⟩ := loopCands_found plugins absPath r0 _ [] hfind
    rw [List.length_take] at hj
    have htake1 : (es.take (es.length - 1)).take (j + 1) = es.take (j + 1) := by
      rw [List.take_take, Nat.min_eq_left (by omega)]
    have htake0 : (es.take (es.length - 1)).take j = es.take j := by
      rw [List.take_take, Nat.min_eq_left (by omega)]
    rw [List.nil_append, htake1] at hget
    rw [htake0] at hnone
    refine ⟨absPath (es.take (j + 1)), hget, Or.inl ?_⟩
    rw [scanFindRoot_absPath_eq goos plugins _ hos (fun e he => hes e (List.mem_of_mem_take he)),
      List.findSome?_cons, hg]
    have hlen : (es.take (j + 1)).length - 1 = j := by
      rw [List.length_take]; omega
    rw [hlen, List.take_take, Nat.min_eq_left (by omega)]
    exact hnone

/-- The element `..` is not a real element, is not empty and has no separator. -/
theorem dotdot_facts : ¬ realElem dotdot ∧ dotdot ≠ [] ∧ dotdot ≠ ['.'] ∧ Separator ∉ dotdot := by
  refine ⟨fun h => h.2.2.1 rfl, by decide, by decide, by decide⟩

/-- The elements of a clean relative path are not empty and have no separator. -/
theorem relShape_elem (es : List Path) (hes : relShape es) (x : Path) (hx : x ∈ es) :
    x ≠ [] ∧ Separator ∉ x := by
  obtain ⟨ds, rs, rfl, hds, hrs⟩ := hes
  rcases List.mem_append.1 hx with h | h
  · rw [hds x h]
    exact ⟨dotdot_facts.2.1, dotdot_facts.2.2.2⟩
  · exact ⟨(hrs x h).1, (hrs x h).2.2.2⟩

/-- A prefix of the elements of a clean relative path has the same shape. -/
theorem relShape_init (xs ys : List Path) (h : relShape (xs ++ ys)) : relShape xs := by
  obtain ⟨ds, rs, heq, hds, hrs⟩ := h
  rcases List.append_eq_append_iff.1 heq with ⟨a, hds1, _⟩ | ⟨c, hxs, hrs1⟩
  · refine ⟨xs, [], by simp, ?_, by simp⟩
    intro x hx
    apply hds x
    rw [hds1]
    simp [hx]
  · refine ⟨ds, c, hxs, hds, ?_⟩
    intro x hx
    apply hrs x
    rw [hrs1]
    simp [hx]

/-- The loop of `Clean` on a relative path writes every element `..` that
comes in front. -/
theorem foldl_cleanStep_dotdots (ds : List Path) (hds : ∀ x ∈ ds, x = dotdot) :
    ∀ out : List Path, (∀ x ∈ out, x = dotdot) →
      ds.foldl (cleanStep false) out = ds.reverse ++ out := by
  induction ds with
  | nil => intro out _; rfl
  | cons d ds ih =>
    intro out hout
    have hd : d = dotdot := hds d (by simp)
    subst hd
    have hstep : cleanStep false out dotdot = dotdot :: out := by
      cases out with
      | nil => simp [cleanStep, dotdot]
      | cons last before =>
        have hl : last = dotdot := hout last (by simp)
        subst hl
        simp [cleanStep, dotdot]
    rw [List.foldl_cons, hstep,
      ih (fun x hx => hds x (by simp [hx])) (dotdot :: out)
        (by
          intro x hx
          rcases List.mem_cons.1 hx with h | h
          · exact h
          · exact hout x h)]
    simp

/-- The loop of `Clean` on a relative path keeps the elements of a clean
relative path, in order. -/
theorem foldl_cleanStep_rel (es : List Path) (hes : relShape es) :
    es.foldl (cleanStep false) [] = es.reverse := by
  obtain ⟨ds, rs, rfl, hds, hrs⟩ := hes
  rw [List.foldl_append, foldl_cleanStep_dotdots ds hds [] (by simp),
    foldl_cleanStep false rs (fun e he => Or.inr (hrs e he))]
  have hfilter : rs.filter (fun e => decide (e ≠ [])) = rs := by
    rw [List.filter_eq_self]
    intro e he
    simpa using (hrs e he).1
  rw [hfilter]
  simp

/-- A relative path with elements is not empty and not absolute. -/
theorem relPath_not_abs (es : List Path) (hne : es ≠ []) (hes : relShape es) :
    relPath es ≠ [] ∧ IsAbs (relPath es) = false := by
  cases es with
  | nil => exact absurd rfl hne
  | cons e rest =>
    obtain ⟨he1, he2⟩ := relShape_elem _ hes e (by simp)
    cases e with
    | nil => exact absurd rfl he1
    | cons c cs =>
      have hc : ¬ c = Separator := fun h => he2 (by simp [h])
      have hc1 : ¬ Separator = c := fun h => hc h.symm
      cases rest with
      | nil => simp [relPath, stringsJoin, IsAbs, stringsHasPrefix, List.isPrefixOf, hc1]
      | cons e1 rest =>
        simp [relPath, stringsJoin, IsAbs, stringsHasPrefix, List.isPrefixOf, hc1]

/-- A relative path made of the elements of a clean relative path is clean. -/
theorem Clean_relPath (es : List Path) (hne : es ≠ []) (hes : relShape es) :
    Clean (relPath es) = relPath es := by
  obtain ⟨hp, habs⟩ := relPath_not_abs es hne hes
  have hsplit : stringsSplit (relPath es) Separator = es :=
    stringsSplit_join es Separator hne (fun e he => (relShape_elem es hes e he).2)
  simp only [relPath] at hp habs hsplit ⊢
  simp [Clean, hp, habs, hsplit, foldl_cleanStep_rel es hes]

/-- One round of the ancestry loop on a relative path: joining the next element
appends it. -/
theorem Join_relPath (pre : List Path) (e : Path) (h : relShape (pre ++ [e])) :
    Join [relPath pre, e] = relPath (pre ++ [e]) := by
  have he : e ≠ [] := (relShape_elem _ h e (by simp)).1
  by_cases hpre : pre = []
  · subst hpre
    have := Clean_relPath [e] (by simp) (by simpa using h)
    simpa [Join, relPath, stringsJoin, he] using this
  · have hp := (relPath_not_abs pre hpre (relShape_init pre [e] h)).1
    have hj : stringsJoin [relPath pre, e] Separator = relPath (pre ++ [e]) := by
      simp [relPath, stringsJoin, stringsJoin_append pre [e] Separator hpre (by simp)]
    simp only [Join, hp, ne_eq, not_false_eq_true, if_true, hj]
    exact Clean_relPath (pre ++ [e]) (by simp) h

/-- The ancestry step on the clean relative path `e1/.../en` looks up `e1`, then
`e1/e2`, up to `e1/.../e(n-1)`, and returns the first pointer it finds. -/
theorem scanFindRoot_relPath_eq (goos : String) (plugins : GoMap Path Ptr) (es : List Path)
    (hne : es ≠ []) (hes : relShape es) :
    scanFindRoot goos plugins (relPath es) =
      (loopCands relPath [] (es.take (es.length - 1))).findSome? (fun c => plugins.get? c) := by
  obtain ⟨_, habs⟩ := relPath_not_abs es hne hes
  have hsplit : stringsSplit (relPath es) Separator = es :=
    stringsSplit_join es Separator hne (fun e he => (relShape_elem es hes e he).2)
  have hstart : (if goos ≠ "windows" ∧ IsAbs (relPath es) = true then ['/'] else []) =
      relPath [] := by
    rw [if_neg (by simp [habs])]
    rfl
  simp only [scanFindRoot, scanAncestors, hsplit, hstart]
  exact scanRootLoop_eq_findSome plugins relPath relShape relShape_init Join_relPath
    (es.take (es.length - 1)) []
    (by
      rw [List.nil_append]
      have h := relShape_init (es.take (es.length - 1)) (es.drop (es.length - 1))
      rw [List.take_append_drop] at h
      exact h hes)

/-- The root that the ancestry step finds for a clean relative path is stored
at a path for which the step finds no root. -/
theorem root_of_relPath_is_top (goos : String) (plugins : GoMap Path Ptr) (es : List Path)
    (r0 : Ptr) (hne : es ≠ []) (hes : relShape es)
    (hfind : scanFindRoot goos plugins (relPath es) = some r0) :
    ∃ c, plugins.get? c = some r0 ∧ TopLevel goos plugins c r0 := by
  rw [scanFindRoot_relPath_eq goos plugins es hne hes] at hfind
  obtain ⟨j, hj, hget, hnone⟩ := loopCands_found plugins relPath r0 _ [] hfind
  rw [List.length_take] at hj
  have htake1 : (es.take (es.length - 1)).take (j + 1) = es.take (j + 1) := by
    rw [List.take_take, Nat.min_eq_left (by omega)]
  have htake0 : (es.take (es.length - 1)).take j = es.take j := by
    rw [List.take_take, Nat.min_eq_left (by omega)]
  rw [List.nil_append, htake1] at hget
  rw [htake0] at hnone
  have hshape : relShape (es.take (j + 1)) := by
    have h := relShape_init (es.take (j + 1)) (es.drop (j + 1))
    rw [List.take_append_drop] at h
    exact h hes
  have hne1 : es.take (j + 1) ≠ [] := by
    intro h0
    have h1 := List.length_take (j + 1) es
    rw [h0, List.length_nil] at h1
    omega
  refine ⟨relPath (es.take (j + 1)), hget, Or.inl ?_⟩
  rw [scanFindRoot_relPath_eq goos plugins _ hne1 hshape]
  have hlen : (es.take (j + 1)).length - 1 = j := by
    rw [List.length_take]; omega
  rw [hlen, List.take_take, Nat.min_eq_left (by omega)]
  exact hnone

/-- One round of the loop of `Clean` on a relative path keeps the shape of what
is written: real elements last, elements `..` first. -/
theorem cleanStep_rel_shape (out : List Path) (e : Path) (he : Separator ∉ e)
    (hout : relShape out.reverse) : relShape (cleanStep false out e).reverse := by
  unfold cleanStep
  by_cases h1 : e = [] ∨ e = ['.']
  · rw [if_pos h1]; exact hout
  · rw [if_neg h1]
    by_cases h2 : e = ['.', '.']
    · rw [if_pos h2]
      cases out with
      | nil => exact ⟨[e], [], by simp, by simp [h2, dotdot], by simp⟩
      | cons last before =>
        obtain ⟨ds, rs, heq, hds, hrs⟩ := hout
        by_cases h3 : last = ['.', '.']
        · simp only [h3, if_true, Bool.false_eq_true, if_false]
          have hrs0 : rs = [] := by
            cases hr : rs.reverse with
            | nil => simpa using hr
            | cons x xs =>
              exfalso
              have hrev := congrArg List.reverse heq
              simp only [List.reverse_reverse, List.reverse_append, hr, List.cons_append,
                List.cons.injEq] at hrev
              have hx : x ∈ rs := by
                rw [← List.mem_reverse, hr]; simp
              have := (hrs x hx).2.2.1
              rw [← hrev.1] at this
              exact this h3
          subst hrs0
          refine ⟨ds ++ [e], [], ?_, ?_, by simp⟩
          · rw [List.reverse_cons, ← h3, heq]
            simp
          · intro x hx
            rcases List.mem_append.1 hx with h | h
            · exact hds x h
            · simp only [List.mem_singleton] at h
              rw [h, h2]; rfl
        · simp only [h3, if_false]
          cases hr : rs.reverse with
          | nil =>
            exfalso
            have hrs0 : rs = [] := by simpa using hr
            subst hrs0
            have hl : last ∈ ds := by
              have : last ∈ (last :: before).reverse := by simp
              rw [heq] at this
              simpa using this
            exact h3 (hds last hl)
          | cons x xs =>
            have hrev := congrArg List.reverse heq
            simp only [List.reverse_reverse, List.reverse_append, hr, List.cons_append,
              List.cons.injEq] at hrev
            refine ⟨ds, xs.reverse, ?_, hds, ?_⟩
            · rw [hrev.2]; simp
            · intro y hy
              apply hrs y
              rw [← List.mem_reverse, hr]
              simp only [List.mem_reverse] at hy
              simp [hy]
    · rw [if_neg h2]
      obtain ⟨ds, rs, heq, hds, hrs⟩ := hout
      refine ⟨ds, rs ++ [e], by simp [heq], hds, ?_⟩
      intro x hx
      rcases List.mem_append.1 hx with h | h
      · exact hrs x h
      · simp only [List.mem_singleton] at h
        rw [h]
        exact ⟨fun h0 => h1 (Or.inl h0), fun h0 => h1 (Or.inr h0), h2, he⟩

/-- The loop of `Clean` on a relative path writes elements `..` first and real
elements behind them. -/
theorem foldl_cleanStep_rel_shape (segs : List Path) (hsegs : ∀ e ∈ segs, Separator ∉ e) :
    ∀ out : List Path, relShape out.reverse →
      relShape (segs.foldl (cleanStep false) out).reverse := by
  induction segs with
  | nil => intro out h; exact h
  | cons e segs ih =>
    intro out h
    rw [List.foldl_cons]
    exact ih (fun x hx => hsegs x (by simp [hx])) _
      (cleanStep_rel_shape out e (hsegs e (by simp)) h)

/-- A clean relative path is `.` or `e1/.../en` for elements `..` followed by
real elements. -/
theorem clean_rel_elems (d : Path) (hclean : Clean d = d) (habs : IsAbs d = false) :
    d = ['.'] ∨ ∃ es : List Path, es ≠ [] ∧ relShape es ∧ d = relPath es := by
  have hp : d ≠ [] := by
    intro h
    subst h
    exact absurd hclean (by decide)
  have hshape := foldl_cleanStep_rel_shape (stringsSplit d Separator)
    (stringsSplit_no_sep d Separator) [] ⟨[], [], by simp, by simp, by simp⟩
  have hval : Clean d =
      if stringsJoin ((stringsSplit d Separator).foldl (cleanStep false) []).reverse Separator
          = [] then ['.']
      else stringsJoin ((stringsSplit d Separator).foldl (cleanStep false) []).reverse
        Separator := by
    simp [Clean, hp, habs]
  rw [hclean] at hval
  by_cases hout :
      stringsJoin ((stringsSplit d Separator).foldl (cleanStep false) []).reverse Separator = []
  · rw [if_pos hout] at hval
    exact Or.inl hval
  · rw [if_neg hout] at hval
    refine Or.inr ⟨_, ?_, hshape, hval⟩
    intro h0
    rw [h0] at hout
    exact hout rfl

/-- The root that the ancestry step finds for a clean directory is stored at a
path for which the step finds no root, or finds the descriptor itself. -/
theorem root_is_top (goos : String) (plugins : GoMap Path Ptr) (d : Path) (r0 : Ptr)
    (hos : goos ≠ "windows") (hclean : Clean d = d)
    (hfind : scanFindRoot goos plugins d = some r0) :
    ∃ c, plugins.get? c = some r0 ∧ TopLevel goos plugins c r0 := by
  cases habs : IsAbs d with
  | true =>
    obtain ⟨es, hes, rfl⟩ := clean_abs_elems d hclean habs
    exact root_of_absPath_is_top goos plugins es r0 hos hes hfind
  | false =>
    rcases clean_rel_elems d hclean habs with rfl | ⟨es, hne, hes, rfl⟩
    · exfalso
      have : scanFindRoot goos plugins ['.'] = none := by
        simp [scanFindRoot, scanAncestors, stringsSplit, scanRootLoop, Separator]
      rw [this] at hfind
      cases hfind
    · exact root_of_relPath_is_top goos plugins es r0 hne hes hfind

/-! ## Lemmas on the rounds of the second pass -/

/-- The override decision depends on the scanner through its configuration and
its predicate only. -/
theorem allowUnsigned_congr (s s1 : PluginScanner) (x : PluginBase) (hcfg : s.cfg = s1.cfg)
    (hcond : s.allowUnsignedPluginsCondition = s1.allowUnsignedPluginsCondition) :
    s.allowUnsigned x = s1.allowUnsigned x := by
  simp only [PluginScanner.allowUnsigned, hcfg, hcond]

/-- The decision after the inheritance step depends on the descriptor and on
the settings of the scanner only, not on its error list. -/
theorem enforceStep_congr (s s1 : PluginScanner) (h h1 : Heap) (p : Ptr) (hcfg : s.cfg = s1.cfg)
    (hreq : s.requireSigned = s1.requireSigned)
    (hcond : s.allowUnsignedPluginsCondition = s1.allowUnsignedPluginsCondition)
    (hp : h p = h1 p) : (enforceStep s h p).1 = (enforceStep s1 h1 p).1 := by
  have ha := allowUnsigned_congr s s1 (h1 p) hcfg hcond
  simp only [enforceStep, hp, hreq, ha]
  by_cases hv : (h1 p).Signature = PluginSignatureValid
  · simp [hv]
  · by_cases hb : (h1 p).Backend = false ∨ s1.requireSigned = false
    · simp [hv, hb]
    · simp only [hv, hb, if_false]
      cases (h1 p).Signature <;> simp
      split <;> rfl

/-- The inheritance step reads the descriptor and the signature state of its
root only. -/
theorem inheritStep_congr (h h1 : Heap) (p : Ptr) (hp : h p = h1 p)
    (hroot : ∀ r, (h p).Root = some r → (h r).Signature = (h1 r).Signature) :
    (inheritStep h p) p = (inheritStep h1 p) p := by
  unfold inheritStep
  rw [← hp]
  by_cases hv : (h p).Signature = PluginSignatureValid
  · rw [if_pos hv, if_pos hv]; exact hp
  · rw [if_neg hv, if_neg hv]
    cases hr : (h p).Root with
    | none => exact hp
    | some root =>
      by_cases hc : (h p).IsCorePlugin = true ∨ (h p).Signature = PluginSignatureInternal
      · simp only [hc, if_true]; exact hp
      · simp only [hc, if_false]
        simp [Heap.write, hroot root hr]

/-- The function `validateSignature` changes nothing of the scanner but its
error list. -/
theorem scanner_of_validateSignature (s : PluginScanner) (h : Heap) (p : Ptr) :
    (s.validateSignature h p).2.1.plugins = s.plugins ∧
      (s.validateSignature h p).2.1.cfg = s.cfg ∧
      (s.validateSignature h p).2.1.requireSigned = s.requireSigned ∧
      (s.validateSignature h p).2.1.allowUnsignedPluginsCondition =
        s.allowUnsignedPluginsCondition := by
  rw [validateSignature_eq_enforceStep]
  generalize inheritStep h p = h1
  unfold enforceStep
  split
  · exact ⟨rfl, rfl, rfl, rfl⟩
  · split
    · exact ⟨rfl, rfl, rfl, rfl⟩
    · split
      · split <;> exact ⟨rfl, rfl, rfl, rfl⟩
      · exact ⟨rfl, rfl, rfl, rfl⟩
      · exact ⟨rfl, rfl, rfl, rfl⟩
      · exact ⟨rfl, rfl, rfl, rfl⟩

/-- The decision of `validateSignature` and the descriptor it leaves depend on
the descriptor, on the signature state of its root and on the settings of the
scanner only. -/
theorem validateSignature_congr (s s1 : PluginScanner) (h h1 : Heap) (p : Ptr)
    (hcfg : s.cfg = s1.cfg) (hreq : s.requireSigned = s1.requireSigned)
    (hcond : s.allowUnsignedPluginsCondition = s1.allowUnsignedPluginsCondition)
    (hp : h p = h1 p)
    (hroot : ∀ r, (h p).Root = some r → (h r).Signature = (h1 r).Signature) :
    (s.validateSignature h p).1 = (s1.validateSignature h1 p).1 ∧
      (s.validateSignature h p).2.2 p = (s1.validateSignature h1 p).2.2 p := by
  have hi := inheritStep_congr h h1 p hp hroot
  refine ⟨?_, ?_⟩
  · rw [validateSignature_eq_enforceStep, validateSignature_eq_enforceStep]
    exact enforceStep_congr s s1 _ _ p hcfg hreq hcond hi
  · rw [heap_of_validateSignature, heap_of_validateSignature]
    exact hi

/-- A descriptor without root, or that is its own root, is left as it is by the
inheritance step. -/
theorem inheritStep_top (h : Heap) (q : Ptr)
    (hroot : (h q).Root = none ∨ (h q).Root = some q) : (inheritStep h q) q = h q := by
  unfold inheritStep
  by_cases hv : (h q).Signature = PluginSignatureValid
  · rw [if_pos hv]
  · rw [if_neg hv]
    rcases hroot with hr | hr
    · rw [hr]
    · rw [hr]
      by_cases hc : (h q).IsCorePlugin = true ∨ (h q).Signature = PluginSignatureInternal
      · simp only [hc, if_true]
      · simp only [hc, if_false]
        simp [Heap.write]

/-- The registrar writes to the plugin that the loader returns only: a
descriptor that the loader leaves alone, and that is not the returned plugin,
is unchanged. -/
theorem loadPlugin_heap_other (host : Host) (pm : PluginManager) (g : Globals) (h : Heap)
    (jsonFPath : Path) (pluginBase : Ptr) (scanner : PluginScanner) (loader : PluginGoType)
    (q : Ptr) (hkeep : (host.Load loader jsonFPath pluginBase h).2 q = h q)
    (hfresh : ∀ plug pb, (host.Load loader jsonFPath pluginBase h).1 = Except.ok plug →
      plug.pluginBase = some pb → pb ≠ q) :
    (pm.loadPlugin host g h jsonFPath pluginBase scanner loader).2.2.2 q = h q := by
  unfold PluginManager.loadPlugin
  rcases hl : host.Load loader jsonFPath pluginBase h with ⟨res, h1⟩
  rw [hl] at hkeep hfresh
  simp only at hkeep hfresh
  cases res with
  | error e => exact hkeep
  | ok plug =>
    cases plug with
    | unrecognized => exact hkeep
    | DataSourcePlugin pb =>
      have hne : ¬ q = pb := fun e => hfresh _ pb rfl rfl e.symm
      simp only
      split
      · exact hkeep
      · simp only [Heap.write, ite_apply, hne, if_false, ite_self, hkeep]
    | PanelPlugin pb =>
      have hne : ¬ q = pb := fun e => hfresh _ pb rfl rfl e.symm
      simp only
      split
      · exact hkeep
      · simp only [Heap.write, ite_apply, hne, if_false, ite_self, hkeep]
    | RendererPlugin pb =>
      have hne : ¬ q = pb := fun e => hfresh _ pb rfl rfl e.symm
      simp only
      split
      · exact hkeep
      · simp only [Heap.write, ite_apply, hne, if_false, ite_self, hkeep]
    | AppPlugin pb =>
      have hne : ¬ q = pb := fun e => hfresh _ pb rfl rfl e.symm
      simp only
      split
      · exact hkeep
      · simp only [Heap.write, ite_apply, hne, if_false, ite_self, hkeep]

/-- The registrar changes nothing of the scanner but its error list. -/
theorem scanner_of_loadPlugin (host : Host) (pm : PluginManager) (g : Globals) (h : Heap)
    (jsonFPath : Path) (pluginBase : Ptr) (scanner : PluginScanner) (loader : PluginGoType) :
    (pm.loadPlugin host g h jsonFPath pluginBase scanner loader).2.2.1.plugins =
        scanner.plugins ∧
      (pm.loadPlugin host g h jsonFPath pluginBase scanner loader).2.2.1.cfg = scanner.cfg ∧
      (pm.loadPlugin host g h jsonFPath pluginBase scanner loader).2.2.1.requireSigned =
        scanner.requireSigned ∧
      (pm.loadPlugin host g h jsonFPath pluginBase scanner loader).2.2.1.allowUnsignedPluginsCondition
        = scanner.allowUnsignedPluginsCondition := by
  unfold PluginManager.loadPlugin
  rcases host.Load loader jsonFPath pluginBase h with ⟨res, h1⟩
  cases res with
  | error e => exact ⟨rfl, rfl, rfl, rfl⟩
  | ok plug =>
    cases plug <;> simp only <;> first
      | exact ⟨rfl, rfl, rfl, rfl⟩
      | exact ⟨trivial, trivial, trivial, trivial⟩
      | (split <;> exact ⟨rfl, rfl, rfl, rfl⟩)

/-- A round of the second pass changes nothing of the scanner but its error
list. -/
theorem scanner_of_scanBody (host : Host) (st : ScanState) (d : Path) (p : Ptr) :
    (scanBody host st d p).2.scanner.plugins = st.scanner.plugins ∧
      (scanBody host st d p).2.scanner.cfg = st.scanner.cfg ∧
      (scanBody host st d p).2.scanner.requireSigned = st.scanner.requireSigned ∧
      (scanBody host st d p).2.scanner.allowUnsignedPluginsCondition =
        st.scanner.allowUnsignedPluginsCondition := by
  have hv := scanner_of_validateSignature st.scanner
    (scanAssignRoot host.GOOS st.scanner.plugins st.heap d p) p
  unfold scanBody
  rcases hvs : st.scanner.validateSignature
    (scanAssignRoot host.GOOS st.scanner.plugins st.heap d p) p with ⟨r, sc, h2⟩
  rw [hvs] at hv
  simp only at hv
  simp only [hvs]
  cases r with
  | panicked v => exact hv
  | returned e =>
    cases e with
    | some err => exact hv
    | none =>
      simp only
      split
      · exact hv
      · split
        · exact hv
        · split
          · exact hv
          · rename_i t _ _ _ _ _
            have hl := scanner_of_loadPlugin host st.pm st.g h2
              (Join [(h2 p).PluginDir, "plugin.json".toList]) p sc t
            rcases hlp : st.pm.loadPlugin host st.g h2
              (Join [(h2 p).PluginDir, "plugin.json".toList]) p sc t with ⟨r2, g1, sc2, h3⟩
            rw [hlp] at hl
            simp only at hl
            obtain ⟨h1a, h1b, h1c, h1d⟩ := hl
            obtain ⟨h2a, h2b, h2c, h2d⟩ := hv
            cases r2 with
            | panicked v => exact ⟨h1a.trans h2a, h1b.trans h2b, h1c.trans h2c, h1d.trans h2d⟩
            | returned e2 =>
              cases e2 <;>
                exact ⟨h1a.trans h2a, h1b.trans h2b, h1c.trans h2c, h1d.trans h2d⟩

/-- A round of the second pass leaves of a scan-local descriptor what the
ancestry step and the inheritance step of the round make of it, when the
loaders allocate. -/
theorem heap_of_scanBody (host : Host) (st : ScanState) (d : Path) (p q : Ptr)
    (hload : LoadersAllocate host st.scanner.plugins)
    (hq : q ∈ st.scanner.plugins.map Prod.snd) :
    (scanBody host st d p).2.heap q =
      (inheritStep (scanAssignRoot host.GOOS st.scanner.plugins st.heap d p) p) q := by
  have hv := heap_of_validateSignature st.scanner
    (scanAssignRoot host.GOOS st.scanner.plugins st.heap d p) p
  unfold scanBody
  rcases hvs : st.scanner.validateSignature
    (scanAssignRoot host.GOOS st.scanner.plugins st.heap d p) p with ⟨r, sc, h2⟩
  rw [hvs] at hv
  simp only at hv
  simp only [hvs]
  rw [← hv]
  cases r with
  | panicked v => rfl
  | returned e =>
    cases e with
    | some err => rfl
    | none =>
      simp only
      split
      · rfl
      · split
        · rfl
        · split
          · rfl
          · rename_i t _ _ _ _ _
            have hl := loadPlugin_heap_other host st.pm st.g h2
              (Join [(h2 p).PluginDir, "plugin.json".toList]) p sc t q
              ((hload t _ p h2).1 q hq)
              (fun plug pb h1 h2e hpb => (hload t _ p h2).2 plug pb h1 h2e (hpb ▸ hq))
            rcases hlp : st.pm.loadPlugin host st.g h2
              (Join [(h2 p).PluginDir, "plugin.json".toList]) p sc t with ⟨r2, g1, sc2, h3⟩
            rw [hlp] at hl
            simp only at hl
            cases r2 with
            | panicked v => exact hl
            | returned e2 => cases e2 <;> exact hl

/-- A binding that the map reads is an entry of the map. -/
theorem GoMap.mem_of_get? {κ V : Type} [DecidableEq κ] (m : GoMap κ V) (k : κ) (v : V)
    (hget : m.get? k = some v) : (k, v) ∈ m := by
  induction m with
  | nil => simp [GoMap.get?] at hget
  | cons kv rest ih =>
    obtain ⟨k0, v0⟩ := kv
    by_cases hk : k0 = k
    · simp only [GoMap.get?, hk, if_true, Option.some.injEq] at hget
      simp [hk, hget]
    · simp only [GoMap.get?, hk, if_false] at hget
      simp [ih hget]

/-- The ancestry step writes to the descriptor of the round only. -/
theorem scanAssignRoot_other (goos : String) (plugins : GoMap Path Ptr) (h : Heap) (d : Path)
    (p q : Ptr) (hq : q ≠ p) : (scanAssignRoot goos plugins h d p) q = h q := by
  unfold scanAssignRoot
  cases scanFindRoot goos plugins d <;> simp [Heap.write, hq]

/-- The descriptor of the round after the ancestry step. -/
theorem scanAssignRoot_self (goos : String) (plugins : GoMap Path Ptr) (h : Heap) (d : Path)
    (p : Ptr) :
    (scanAssignRoot goos plugins h d p) p =
      match scanFindRoot goos plugins d with
      | some root => { h p with Root := some root }
      | none => h p := by
  unfold scanAssignRoot
  cases scanFindRoot goos plugins d <;> simp [Heap.write]

/-- What a round of the second pass leaves of a scan-local descriptor, when the
loaders allocate and the scan-local map is `m`. -/
theorem heap_of_scanBody_in (host : Host) (m : GoMap Path Ptr) (st : ScanState) (d1 : Path)
    (p1 q : Ptr) (hm : st.scanner.plugins = m) (hload : LoadersAllocate host m)
    (hq : q ∈ m.map Prod.snd) :
    (scanBody host st d1 p1).2.heap q =
      (inheritStep (scanAssignRoot host.GOOS m st.heap d1 p1) p1) q := by
  have := heap_of_scanBody host st d1 p1 q (by rw [hm]; exact hload) (by rw [hm]; exact hq)
  rw [hm] at this
  exact this

/-- Every round of the second pass on a descriptor of the map keeps `ScanTop`. -/
theorem ScanTop_scanBody (host : Host) (m : GoMap Path Ptr) (s0 : PluginScanner) (h0 : Heap)
    (st : ScanState) (d1 : Path) (p1 : Ptr)
    (hinv : ScanTop host.GOOS m s0 h0 st) (hptrs : (m.map Prod.snd).Nodup)
    (hload : LoadersAllocate host m) (he : (d1, p1) ∈ m) :
    ScanTop host.GOOS m s0 h0 (scanBody host st d1 p1).2 := by
  obtain ⟨hm, hcfg, hreq, hcond, htop⟩ := hinv
  obtain ⟨sa, sb, sc, sd⟩ := scanner_of_scanBody host st d1 p1
  refine ⟨sa.trans hm, sb.trans hcfg, sc.trans hreq, sd.trans hcond, ?_⟩
  intro k q hkq hT
  have hq : q ∈ m.map Prod.snd := List.mem_map.2 ⟨(k, q), hkq, rfl⟩
  rw [heap_of_scanBody_in host m st d1 p1 q hm hload hq]
  by_cases hqp : q = p1
  · subst hqp
    have hk : k = d1 := by
      have := List.inj_on_of_nodup_map hptrs hkq he rfl
      exact (Prod.mk.inj this).1
    subst hk
    obtain ⟨hsig, hr⟩ := htop k q hkq hT
    rcases hT with hT | hT
    · have hH : scanAssignRoot host.GOOS m st.heap k q = st.heap := by
        simp [scanAssignRoot, hT]
      rw [hH, inheritStep_top _ _ hr]
      exact ⟨hsig, hr⟩
    · have hH : (scanAssignRoot host.GOOS m st.heap k q) q =
          { st.heap q with Root := some q } := by
        rw [scanAssignRoot_self, hT]
      rw [inheritStep_top _ _ (by rw [hH]; exact Or.inr rfl), hH]
      exact ⟨hsig, Or.inr rfl⟩
  · rw [inheritStep_other _ _ _ hqp, scanAssignRoot_other _ _ _ _ _ _ hqp]
    exact htop k q hkq hT

/-- A round of the second pass on another descriptor of the map keeps the
invariant. -/
theorem ScanInv_scanBody (host : Host) (m : GoMap Path Ptr) (s0 : PluginScanner) (h0 : Heap)
    (p : Ptr) (st : ScanState) (d1 : Path) (p1 : Ptr)
    (hinv : ScanInv host.GOOS m s0 h0 p st) (hptrs : (m.map Prod.snd).Nodup)
    (hload : LoadersAllocate host m) (hp : p ∈ m.map Prod.snd) (he : (d1, p1) ∈ m)
    (hne : p1 ≠ p) : ScanInv host.GOOS m s0 h0 p (scanBody host st d1 p1).2 := by
  refine ⟨ScanTop_scanBody host m s0 h0 st d1 p1 hinv.1 hptrs hload he, ?_⟩
  rw [heap_of_scanBody_in host m st d1 p1 p hinv.1.1 hload hp,
    inheritStep_other _ _ _ (fun e => hne e.symm),
    scanAssignRoot_other _ _ _ _ _ _ (fun e => hne e.symm)]
  exact hinv.2

/-- The rounds of the second pass on other descriptors of the map keep the
invariant, wherever the loop stops. -/
theorem ScanInv_scanRange (host : Host) (m : GoMap Path Ptr) (s0 : PluginScanner) (h0 : Heap)
    (p : Ptr) (hptrs : (m.map Prod.snd).Nodup) (hload : LoadersAllocate host m)
    (hp : p ∈ m.map Prod.snd) (pre : List (Path × Ptr)) :
    ∀ st, ScanInv host.GOOS m s0 h0 p st → (∀ e ∈ pre, e ∈ m) → p ∉ pre.map Prod.snd →
      ScanInv host.GOOS m s0 h0 p (scanRange host pre st).2 := by
  induction pre with
  | nil => intro st hinv _ _; exact hinv
  | cons e pre ih =>
    intro st hinv hsub hnot
    obtain ⟨d1, p1⟩ := e
    have hne : p1 ≠ p := by
      intro h
      apply hnot
      simp [h]
    have hstep := ScanInv_scanBody host m s0 h0 p st d1 p1 hinv hptrs hload hp
      (hsub (d1, p1) (by simp)) hne
    rw [scanRange]
    rcases hb : scanBody host st d1 p1 with ⟨fl, st1⟩
    rw [hb] at hstep
    cases fl with
    | next =>
      exact ih st1 hstep (fun x hx => hsub x (by simp [hx]))
        (fun hx => hnot (by simp only [List.map_cons, List.mem_cons]; exact Or.inr hx))
    | ret err => exact hstep
    | panic v => exact hstep

/-- The loop of the second pass over two lists of entries, one after the other. -/
theorem scanRange_append (host : Host) (xs ys : List (Path × Ptr)) :
    ∀ st, scanRange host (xs ++ ys) st =
      match scanRange host xs st with
      | (Flow.next, st1) => scanRange host ys st1
      | stop => stop := by
  induction xs with
  | nil => intro st; rfl
  | cons e xs ih =>
    intro st
    obtain ⟨d1, p1⟩ := e
    simp only [List.cons_append, scanRange]
    rcases scanBody host st d1 p1 with ⟨fl, st1⟩
    cases fl with
    | next => exact ih st1
    | ret err => rfl
    | panic v => rfl

/-- In every state that keeps the invariant the validation of the descriptor at
`d` has the outcome it has in the store of the walk. -/
theorem scanValidate_of_ScanInv (host : Host) (m : GoMap Path Ptr) (s0 : PluginScanner)
    (h0 : Heap) (d : Path) (p : Ptr) (st : ScanState) (hos : host.GOOS ≠ "windows")
    (hclean : Clean d = d) (hroot : (h0 p).Root = none)
    (hinv : ScanInv host.GOOS m s0 h0 p st) :
    scanValidate host st d p =
      ((s0.validateSignature (scanAssignRoot host.GOOS m h0 d p) p).1,
        (s0.validateSignature (scanAssignRoot host.GOOS m h0 d p) p).2.2 p) := by
  obtain ⟨⟨hm, hcfg, hreq, hcond, htop⟩, hheap⟩ := hinv
  have hself : (scanAssignRoot host.GOOS m st.heap d p) p =
      (scanAssignRoot host.GOOS m h0 d p) p := by
    rw [scanAssignRoot_self, scanAssignRoot_self, hheap]
  have hsig : ∀ r, ((scanAssignRoot host.GOOS m st.heap d p) p).Root = some r →
      ((scanAssignRoot host.GOOS m st.heap d p) r).Signature =
        ((scanAssignRoot host.GOOS m h0 d p) r).Signature := by
    intro r hr
    by_cases hrp : r = p
    · rw [hrp, hself]
    · rw [scanAssignRoot_other _ _ _ _ _ _ hrp, scanAssignRoot_other _ _ _ _ _ _ hrp]
      rw [scanAssignRoot_self] at hr
      cases hf : scanFindRoot host.GOOS m d with
      | none =>
        rw [hf] at hr
        simp only at hr
        rw [hheap, hroot] at hr
        cases hr
      | some r0 =>
        rw [hf] at hr
        simp only [Option.some.injEq] at hr
        subst hr
        obtain ⟨c, hget, hT⟩ := root_is_top host.GOOS m d r0 hos hclean hf
        exact (htop c r0 (GoMap.mem_of_get? m c r0 hget) hT).1
  have := validateSignature_congr st.scanner s0 _ _ p hcfg hreq hcond hself hsig
  simp only [scanValidate, hm]
  exact Prod.ext this.1 this.2

/-! ## The order of the second pass -/

/-- Once the second pass reaches the descriptor at `d`, the descriptor ends as
its validation in the store of the walk leaves it, wherever the loop stops
afterwards. -/
theorem heap_after_scanRange (host : Host) (st0 : ScanState) (d : Path) (p : Ptr)
    (pre post : List (Path × Ptr)) (hos : host.GOOS ≠ "windows") (hclean : Clean d = d)
    (hptrs : (st0.scanner.plugins.map Prod.snd).Nodup)
    (hroot : ∀ e ∈ st0.scanner.plugins, (st0.heap e.2).Root = none)
    (hload : LoadersAllocate host st0.scanner.plugins)
    (hd : (d, p) ∈ st0.scanner.plugins)
    (hpre : ∀ e ∈ pre, e ∈ st0.scanner.plugins) (hp1 : p ∉ pre.map Prod.snd)
    (hpost : ∀ e ∈ post, e ∈ st0.scanner.plugins) (hp2 : p ∉ post.map Prod.snd)
    (hrun : (scanRange host pre st0).1 = Flow.next) :
    (scanRange host (pre ++ (d, p) :: post) st0).2.heap p = (scanValidate host st0 d p).2 := by
  have hp : p ∈ st0.scanner.plugins.map Prod.snd := List.mem_map.2 ⟨(d, p), hd, rfl⟩
  have hinv0 : ScanInv host.GOOS st0.scanner.plugins st0.scanner st0.heap p st0 :=
    ⟨⟨rfl, rfl, rfl, rfl, fun k q hkq _ => ⟨rfl, Or.inl (hroot (k, q) hkq)⟩⟩, rfl⟩
  have hinv1 := ScanInv_scanRange host _ _ _ p hptrs hload hp pre st0 hinv0 hpre hp1
  have hval0 := scanValidate_of_ScanInv host _ _ _ d p _ hos hclean (hroot (d, p) hd) hinv0
  have hval1 := scanValidate_of_ScanInv host _ _ _ d p _ hos hclean (hroot (d, p) hd) hinv1
  rw [scanRange_append]
  rcases hr1 : scanRange host pre st0 with ⟨fl, st1⟩
  rw [hr1] at hrun hinv1 hval1
  cases fl with
  | ret err => exact absurd hrun (by simp)
  | panic v => exact absurd hrun (by simp)
  | next =>
    simp only [scanRange]
    have htop2 := ScanTop_scanBody host _ _ _ st1 d p hinv1.1 hptrs hload hd
    have hheap2 := heap_of_scanBody_in host _ st1 d p p hinv1.1.1 hload hp
    have hs : (scanValidate host st1 d p).2 = (scanValidate host st0 d p).2 := by
      rw [hval0]
      exact congrArg Prod.snd hval1
    have hm1 : st1.scanner.plugins = st0.scanner.plugins := hinv1.1.1
    have hround : (scanBody host st1 d p).2.heap p = (scanValidate host st0 d p).2 := by
      rw [hheap2, ← hs]
      simp only [scanValidate]
      rw [heap_of_validateSignature, hm1]
    rcases hb : scanBody host st1 d p with ⟨fl2, st2⟩
    rw [hb] at htop2 hround
    cases fl2 with
    | ret err => exact hround
    | panic v => exact hround
    | next =>
      simp only at hround ⊢
      have hinv2 : ScanInv host.GOOS st0.scanner.plugins st0.scanner st2.heap p st2 :=
        ⟨⟨htop2.1, htop2.2.1, htop2.2.2.1, htop2.2.2.2.1,
          fun k q hkq hT => ⟨rfl, (htop2.2.2.2.2 k q hkq hT).2⟩⟩, rfl⟩
      have hinv3 := ScanInv_scanRange host _ _ _ p hptrs hload hp post st2 hinv2 hpost hp2
      rw [hinv3.2]
      exact hround

/-- C15, as stated, fails: in the abort example the map has clean paths, one
address per descriptor and no root yet, and the package `X` has a type that is
not a plugin type, so the second pass aborts with the unknown-type error in
every order.  In the order `A`, `B`, `X` the descriptor `B` was visited before
the abort: it ends with the root `A`, the state Invalid and the recorded
rejection `signatureInvalid`.  In the order `X`, `A`, `B` the pass aborts first:
`B` ends without root, Unsigned and with no rejection recorded. -/
theorem scan_abort_order_dependent :
    (orderHost.GOOS ≠ "windows" ∧
      (∀ k ∈ abortState.scanner.plugins.keys, Clean k = k) ∧
      (abortState.scanner.plugins.map Prod.snd).Nodup ∧
      (∀ e ∈ abortState.scanner.plugins, (abortState.heap e.2).Root = none) ∧
      LoadersAllocate orderHost abortState.scanner.plugins) ∧
    ((scanRange orderHost [("/p/A".toList, 0), ("/p/A/B".toList, 1), ("/p/X".toList, 2)]
          abortState).1 = Flow.ret (GoError.unknownPluginType "foo") ∧
      ((scanRange orderHost [("/p/A".toList, 0), ("/p/A/B".toList, 1), ("/p/X".toList, 2)]
          abortState).2.heap 1).Root = some 0 ∧
      ((scanRange orderHost [("/p/A".toList, 0), ("/p/A/B".toList, 1), ("/p/X".toList, 2)]
          abortState).2.heap 1).Signature = PluginSignatureInvalid ∧
      (scanRange orderHost [("/p/A".toList, 0), ("/p/A/B".toList, 1), ("/p/X".toList, 2)]
          abortState).2.pm.pluginScanningErrors.get? "B" =
        some { ErrorCode := signatureInvalid }) ∧
    ((scanRange orderHost [("/p/X".toList, 2), ("/p/A".toList, 0), ("/p/A/B".toList, 1)]
          abortState).1 = Flow.ret (GoError.unknownPluginType "foo") ∧
      ((scanRange orderHost [("/p/X".toList, 2), ("/p/A".toList, 0), ("/p/A/B".toList, 1)]
          abortState).2.heap 1).Root = none ∧
      ((scanRange orderHost [("/p/X".toList, 2), ("/p/A".toList, 0), ("/p/A/B".toList, 1)]
          abortState).2.heap 1).Signature = PluginSignatureUnsigned ∧
      (scanRange orderHost [("/p/X".toList, 2), ("/p/A".toList, 0), ("/p/A/B".toList, 1)]
          abortState).2.pm.pluginScanningErrors.get? "B" = none) :=
  ⟨⟨by decide, by decide, by decide, by decide,
      fun _ _ _ _ =>
        ⟨fun _ _ => rfl, fun plug pb hl hpb => by
          cases hl
          cases hpb
          decide⟩⟩,
    by decide, by decide⟩

/-- C15, amended (the validation outcomes do not depend on the visiting order,
for the descriptors that the pass reaches): on a host that is not Windows, for a
scan-local map of clean paths in which every descriptor has its own address and
no root yet, and loaders that allocate the plugins they return, take a
descriptor at `d` and two orders of the second pass, in which it comes after the
entries `pre1` and before `post1`, or after `pre2` and before `post2`.  The
validation of the descriptor (the decision with its error code, and the
descriptor left, with its root and its final signature state) is the same after
the rounds of `pre1` as after the rounds of `pre2`, and the same as in the store
the walk left, so that the root keeps the signature state the walk gave it; and
when both passes reach the descriptor, that is when neither aborts before it,
the descriptor ends the same in both, wherever the passes stop afterwards. -/
theorem scan_validation_order_independent (host : Host) (st0 : ScanState) (d : Path) (p : Ptr)
    (pre1 post1 pre2 post2 : List (Path × Ptr))
    (hos : host.GOOS ≠ "windows")
    (hclean : ∀ k ∈ st0.scanner.plugins.keys, Clean k = k)
    (hptrs : (st0.scanner.plugins.map Prod.snd).Nodup)
    (hroot : ∀ e ∈ st0.scanner.plugins, (st0.heap e.2).Root = none)
    (hload : LoadersAllocate host st0.scanner.plugins)
    (hd : (d, p) ∈ st0.scanner.plugins)
    (hpre1 : ∀ e ∈ pre1 ++ post1, e ∈ st0.scanner.plugins)
    (hp1 : p ∉ (pre1 ++ post1).map Prod.snd)
    (hpre2 : ∀ e ∈ pre2 ++ post2, e ∈ st0.scanner.plugins)
    (hp2 : p ∉ (pre2 ++ post2).map Prod.snd) :
    scanValidate host (scanRange host pre1 st0).2 d p =
        scanValidate host (scanRange host pre2 st0).2 d p ∧
      scanValidate host (scanRange host pre1 st0).2 d p = scanValidate host st0 d p ∧
      ((scanRange host pre1 st0).1 = Flow.next →
        (scanRange host pre2 st0).1 = Flow.next →
        (scanRange host (pre1 ++ (d, p) :: post1) st0).2.heap p =
            (scanRange host (pre2 ++ (d, p) :: post2) st0).2.heap p ∧
          (scanRange host (pre1 ++ (d, p) :: post1) st0).2.heap p =
            (scanValidate host st0 d p).2) := by
  have hdclean : Clean d = d := hclean d (List.mem_map.2 ⟨(d, p), hd, rfl⟩)
  have hp : p ∈ st0.scanner.plugins.map Prod.snd := List.mem_map.2 ⟨(d, p), hd, rfl⟩
  have hinv0 : ScanInv host.GOOS st0.scanner.plugins st0.scanner st0.heap p st0 :=
    ⟨⟨rfl, rfl, rfl, rfl, fun k q hkq _ => ⟨rfl, Or.inl (hroot (k, q) hkq)⟩⟩, rfl⟩
  have hsub1a : ∀ e ∈ pre1, e ∈ st0.scanner.plugins := fun e he => hpre1 e (by simp [he])
  have hsub1b : ∀ e ∈ post1, e ∈ st0.scanner.plugins := fun e he => hpre1 e (by simp [he])
  have hsub2a : ∀ e ∈ pre2, e ∈ st0.scanner.plugins := fun e he => hpre2 e (by simp [he])
  have hsub2b : ∀ e ∈ post2, e ∈ st0.scanner.plugins := fun e he => hpre2 e (by simp [he])
  simp only [List.map_append, List.mem_append, not_or] at hp1 hp2
  have h1 := scanValidate_of_ScanInv host _ _ _ d p _ hos hdclean (hroot (d, p) hd)
    (ScanInv_scanRange host _ _ _ p hptrs hload hp pre1 st0 hinv0 hsub1a hp1.1)
  have h2 := scanValidate_of_ScanInv host _ _ _ d p _ hos hdclean (hroot (d, p) hd)
    (ScanInv_scanRange host _ _ _ p hptrs hload hp pre2 st0 hinv0 hsub2a hp2.1)
  have h0 := scanValidate_of_ScanInv host _ _ _ d p _ hos hdclean (hroot (d, p) hd) hinv0
  refine ⟨h1.trans h2.symm, h1.trans h0.symm, ?_⟩
  intro hrun1 hrun2
  have e1 := heap_after_scanRange host st0 d p pre1 post1 hos hdclean hptrs hroot hload hd
    hsub1a hp1.1 hsub1b hp1.2 hrun1
  have e2 := heap_after_scanRange host st0 d p pre2 post2 hos hdclean hptrs hroot hload hd
    hsub2a hp2.1 hsub2b hp2.2 hrun2
  exact ⟨e1.trans e2.symm, e1⟩

/-- The witness of C15 amended: in the nesting example the second pass visits `C`
last in one order and first in the other; in both `C` takes the state Invalid
from its root `A`, not the state of `B`, and is rejected with
`signatureInvalid`.  In the abort example both orders reach `B` before they
abort on `X`, and `B` ends the same in both. -/
theorem scan_validation_order_independent_witness :
    ((scanRange orderHost [("/p/A".toList, 0), ("/p/A/B".toList, 1), ("/p/A/B/C".toList, 2)]
        orderState).1 = Flow.next ∧
      (scanRange orderHost [("/p/A/B/C".toList, 2), ("/p/A/B".toList, 1), ("/p/A".toList, 0)]
        orderState).1 = Flow.next ∧
      scanValidate orderHost
          (scanRange orderHost [("/p/A".toList, 0), ("/p/A/B".toList, 1)] orderState).2
          "/p/A/B/C".toList 2 =
        scanValidate orderHost (scanRange orderHost [] orderState).2 "/p/A/B/C".toList 2 ∧
      (scanRange orderHost [("/p/A".toList, 0), ("/p/A/B".toList, 1), ("/p/A/B/C".toList, 2)]
          orderState).2.heap 2 =
        (scanRange orderHost [("/p/A/B/C".toList, 2), ("/p/A/B".toList, 1), ("/p/A".toList, 0)]
          orderState).2.heap 2 ∧
      (scanValidate orderHost orderState "/p/A/B/C".toList 2).1 =
        Outcome.returned (some { ErrorCode := signatureInvalid }) ∧
      (scanValidate orderHost orderState "/p/A/B/C".toList 2).2.Root = some 0 ∧
      (scanValidate orderHost orderState "/p/A/B/C".toList 2).2.Signature =
        PluginSignatureInvalid) ∧
    ((scanRange orderHost [("/p/A".toList, 0), ("/p/A/B".toList, 1), ("/p/X".toList, 2)]
        abortState).1 = Flow.ret (GoError.unknownPluginType "foo") ∧
      (scanRange orderHost [("/p/A/B".toList, 1), ("/p/X".toList, 2), ("/p/A".toList, 0)]
        abortState).1 = Flow.ret (GoError.unknownPluginType "foo") ∧
      (scanRange orderHost [("/p/A".toList, 0), ("/p/A/B".toList, 1), ("/p/X".toList, 2)]
          abortState).2.heap 1 =
        (scanRange orderHost [("/p/A/B".toList, 1), ("/p/X".toList, 2), ("/p/A".toList, 0)]
          abortState).2.heap 1 ∧
      ((scanRange orderHost [("/p/A".toList, 0), ("/p/A/B".toList, 1), ("/p/X".toList, 2)]
          abortState).2.heap 1).Root = some 0 ∧
      ((scanRange orderHost [("/p/A".toList, 0), ("/p/A/B".toList, 1), ("/p/X".toList, 2)]
          abortState).2.heap 1).Signature = PluginSignatureInvalid) :=
  have w := scan_validation_order_independent orderHost orderState "/p/A/B/C".toList 2
    [("/p/A".toList, 0), ("/p/A/B".toList, 1)] []
    [] [("/p/A/B".toList, 1), ("/p/A".toList, 0)]
    (by decide) (by decide) (by decide) (by decide)
    (fun _ _ _ _ =>
      ⟨fun _ _ => rfl, fun plug pb hl hpb => by
        cases hl
        cases hpb
        decide⟩)
    (by decide) (by decide) (by decide) (by decide) (by decide)
  have v := scan_validation_order_independent orderHost abortState "/p/A/B".toList 1
    [("/p/A".toList, 0)] [("/p/X".toList, 2)]
    [] [("/p/X".toList, 2), ("/p/A".toList, 0)]
    (by decide) (by decide) (by decide) (by decide)
    (fun _ _ _ _ =>
      ⟨fun _ _ => rfl, fun plug pb hl hpb => by
        cases hl
        cases hpb
        decide⟩)
    (by decide) (by decide) (by decide) (by decide) (by decide)
  ⟨⟨by decide, by decide, w.1, (w.2.2 (by decide) (by decide)).1, by decide, by decide,
      by decide⟩,
    ⟨by decide, by decide, (v.2.2 (by decide) (by decide)).1, by decide, by decide⟩⟩

end PluginManagerModel
